import Mathlib

/-!
Cryptletter route table (`routes.go`).

A shallow embedding of `routes.go`: the `Route` record, the declared table
`routes`, the constant `staticDirPathPrefix` and the factory `NewRouter`.

`NewRouter` only assembles a `gorilla/mux` router, so the part of `gorilla/mux`
that `NewRouter` drives is embedded as well, following the library's own
functions (`newRouteRegexp`, `Route.Match`, `Router.Match`, `Router.ServeHTTP`,
`cleanPath`). `routes.go` does not say which release of the library the program
is built with, and the releases differ in how a request is answered whose path
matches a route under another method only; the embedding takes the behaviour of
the release as a parameter (`Release`) and the theorems hold for every release.

Paths and templates are lists of characters; HTTP methods and names are strings.
-/

namespace Cryptletter

/-! ## Requests and handlers -/

/-- A URL, as far as routing reads it (`url.URL`): the path, decoded, and the query
string. The other components (scheme, host, fragment) are not read by the router and
are left out: in a URL made from the URL of a request they are those of the request. -/
structure URL where
  Path : List Char
  RawQuery : List Char
  deriving DecidableEq, Repr

/-- A request, as far as routing reads it: the method and the URL. -/
structure Request where
  Method : String
  URL : URL
  deriving DecidableEq, Repr

/-- The `http.Handler` values that occur in `routes.go` and in the router. -/
inductive Handler where
  /-- A handler function of the repository, by its Go identifier. -/
  | func (name : String)
  /-- The closure `func(w, r) { NotFound(w, r) }` of `NewRouter`. -/
  | notFoundFunc
  /-- The decorator call `Logger(inner, name)`. -/
  | logger (inner : Handler) (name : String)
  /-- The file server `http.FileServer(http.Dir(dir))`. -/
  | fileServer (dir : String)
  /-- The wrapper `http.StripPrefix(pfx, h)`. -/
  | stripPrefix (pfx : String) (h : Handler)
  /-- The handler `http.RedirectHandler(u.String(), code)` for a URL `u`: the target of
  the redirect is the string form of `u` (its path percent-encoded, then its query). -/
  | redirect (u : URL) (code : Nat)
  /-- The router's built-in answer 405 (`methodNotAllowedHandler()`). -/
  | methodNotAllowed
  /-- The standard answer 404 (`http.NotFoundHandler()`). -/
  | httpNotFound
  deriving DecidableEq, Repr

/-- Number of `Logger` decorators that run when the handler serves one request. -/
def Handler.loggerCount : Handler → Nat
  | .logger inner _ => inner.loggerCount + 1
  | .stripPrefix _ h => h.loggerCount
  | _ => 0

/-- The names under which `Logger` decorators run when the handler serves one
request, outermost first. -/
def Handler.loggerNames : Handler → List String
  | .logger inner name => name :: inner.loggerNames
  | .stripPrefix _ h => h.loggerNames
  | _ => []

/-- The path that `http.StripPrefix(pfx, h)` hands to `h`: the request path
without the leading `pfx`; `none` when the path does not start with `pfx`
(the wrapper then answers 404 itself). -/
def stripPrefixPath (pfx path : List Char) : Option (List Char) :=
  if pfx.isPrefixOf path ∧ pfx ≠ [] then some (path.drop pfx.length)
  else if pfx = [] then some path
  else none

/-! ## The source: `Route`, `Routes`, `routes` -/

/-- Route struct. -/
structure Route where
  Name : String
  Method : String
  Pattern : String
  HandlerFunc : Handler
  deriving DecidableEq, Repr

/-- Routes slice. -/
abbrev Routes := List Route

/-- The constant `staticDirPathPrefix`. -/
def staticDirPathPrefix : String := "/static/"

/-- The declared table `routes`. -/
def routes : Routes :=
  [ { Name := "Index", Method := "GET", Pattern := "/",
      HandlerFunc := .func "IndexAction" },
    { Name := "Styleguide", Method := "GET", Pattern := "/styleguide",
      HandlerFunc := .func "StyleguideAction" },
    { Name := "NewMessage", Method := "POST", Pattern := "/",
      HandlerFunc := .func "NewMessageAction" },
    { Name := "ShowMessage", Method := "GET", Pattern := "/{token}/",
      HandlerFunc := .func "ShowAction" },
    { Name := "DeleteMessage", Method := "DELETE", Pattern := "/{token}/",
      HandlerFunc := .func "DeleteMessageAction" } ]

/-! ## The router library: compiled path templates -/

/-- One piece of a compiled template: literal text (`regexp.QuoteMeta(raw)`) or a
variable `{name}` with the default pattern `[^/]+`. -/
inductive Piece where
  | lit (raw : List Char)
  | var (name : List Char)
  deriving DecidableEq, Repr

/-- The kinds of template used here: `regexpTypePath` and `regexpTypePrefix`. -/
inductive RegexpType where
  | path
  | pathPrefix
  deriving DecidableEq, Repr

/-- A compiled template (`routeRegexp`): the regular expression is
`^` followed by the pieces, then `[/]?` when `optSlash`, then `$` when `anchored`. -/
structure RouteRegexp where
  template : List Char
  regexpType : RegexpType
  strictSlash : Bool
  pieces : List Piece
  optSlash : Bool
  anchored : Bool
  varsN : List (List Char)
  deriving DecidableEq, Repr

/-- Scanner of a template: `raw` is the literal text read since the last variable,
`cur` the name of the variable being read, if any. A template with unbalanced
braces or an empty variable name is an error (`none`). Templates with a brace within
braces or with a custom pattern `{name:pattern}`, which the library compiles too, are
not embedded: they give `none` here, and the statements about arbitrary tables are
restricted to tables without them (`simpleTemplate`). -/
def parseTemplate : List Char → List Char → Option (List Char) → Option (List Piece)
  | [], raw, none => some [.lit raw]
  | [], _, some _ => none
  | c :: cs, raw, none =>
    if c = '{' then (parseTemplate cs [] (some [])).map (fun ps => .lit raw :: ps)
    else if c = '}' then none
    else parseTemplate cs (raw ++ [c]) none
  | c :: cs, raw, some name =>
    if c = '}' then
      if name = [] then none else (parseTemplate cs [] none).map (fun ps => .var name :: ps)
    else if c = '{' ∨ c = ':' then none
    else parseTemplate cs raw (some (name ++ [c]))

/-- The variable names of a compiled template, in order. -/
def pieceVars : List Piece → List (List Char)
  | [] => []
  | .lit _ :: ps => pieceVars ps
  | .var name :: ps => name :: pieceVars ps

/-- Compilation of a template (`newRouteRegexp`): strict slash applies to path
templates only; under strict slash a trailing slash of the template is dropped
and `[/]?` is appended; every kind but the prefix kind is anchored with `$`. -/
def newRouteRegexp (tpl : List Char) (typ : RegexpType) (strictSlash : Bool) :
    Option RouteRegexp :=
  let strict := strictSlash && decide (typ = .path)
  let body := if strict && decide (tpl.getLast? = some '/') then tpl.dropLast else tpl
  match parseTemplate body [] none with
  | none => none
  | some ps =>
    some { template := tpl, regexpType := typ, strictSlash := strict, pieces := ps,
           optSlash := strict, anchored := decide (typ ≠ .pathPrefix),
           varsN := pieceVars ps }

/-- The ways of reading a variable (`[^/]+`) at the head of the text: a non-empty
run of characters other than the slash and the rest, the longest run first. -/
def varSplits : List Char → List (List Char × List Char)
  | [] => []
  | c :: cs =>
    if c = '/' then []
    else (varSplits cs).map (fun tr => (c :: tr.1, tr.2)) ++ [([c], cs)]

/-- Matching of the text against `^pieces([/]?)($)`: the values of the variables
of the first successful reading, `none` when there is no match. -/
def matchPieces : List Piece → Bool → Bool → List Char → Option (List (List Char))
  | [], optSlash, anchored, s =>
    let t := if optSlash then (match s with | '/' :: t => t | _ => s) else s
    if anchored then (if t = [] then some [] else none) else some []
  | .lit raw :: ps, optSlash, anchored, s =>
    if raw.isPrefixOf s then matchPieces ps optSlash anchored (s.drop raw.length) else none
  | .var _ :: ps, optSlash, anchored, s =>
    (varSplits s).findSome?
      (fun tr => (matchPieces ps optSlash anchored tr.2).map (fun vs => tr.1 :: vs))

/-- The submatches of the compiled expression on a path (`FindStringSubmatch`). -/
def RouteRegexp.submatch (rr : RouteRegexp) (path : List Char) : Option (List (List Char)) :=
  matchPieces rr.pieces rr.optSlash rr.anchored path

/-- The method `routeRegexp.Match` for path and prefix templates. -/
def RouteRegexp.Match (rr : RouteRegexp) (path : List Char) : Bool :=
  (rr.submatch path).isSome

/-! ## The router library: routes, matching, dispatch -/

/-- The behaviour of a release of the router library, as far as matching differs
between the releases. `methodMismatch`: a failed method matcher is recorded as
`ErrMethodMismatch` instead of failing the route like any other matcher.
`notFoundFirst`: when no route matches, a not-found handler that is set is used
even after a method mismatch, unless a method-not-allowed handler is set; otherwise
a method mismatch is answered with status 405. `recordsNotFound`: a request that
no route matches is recorded as `ErrNotFound`. `clearOnMatch`: a matcher that
succeeds clears a mismatch recorded by an earlier route. -/
structure Release where
  methodMismatch : Bool
  notFoundFirst : Bool
  recordsNotFound : Bool
  clearOnMatch : Bool
  deriving DecidableEq, Repr

/-- The releases without method mismatch (the earliest ones). -/
def Release.noMismatch : Release :=
  { methodMismatch := false, notFoundFirst := false, recordsNotFound := false,
    clearOnMatch := false }

/-- The release in which the not-found handler comes before the answer 405. -/
def Release.customFirst : Release :=
  { methodMismatch := true, notFoundFirst := true, recordsNotFound := false,
    clearOnMatch := false }

/-- The releases that answer a method mismatch with status 405. -/
def Release.notAllowed : Release :=
  { methodMismatch := true, notFoundFirst := false, recordsNotFound := true,
    clearOnMatch := false }

/-- The release that also clears a recorded mismatch on a matcher that succeeds. -/
def Release.cleared : Release :=
  { methodMismatch := true, notFoundFirst := false, recordsNotFound := true,
    clearOnMatch := true }

/-- The matchers that `Methods`, `Path` and `PathPrefix` add to a route. -/
inductive Matcher where
  | methods (ms : List String)
  | regexp (rr : RouteRegexp)
  deriving DecidableEq, Repr

/-- The method `Match` of a matcher: a method matcher looks the request method up
in its list, a template matcher runs its expression on the request path. -/
def Matcher.Match : Matcher → Request → Bool
  | .methods ms, req => decide (req.Method ∈ ms)
  | .regexp rr, req => rr.Match req.URL.Path

/-- A route of the router (`mux.Route`). -/
structure MuxRoute where
  handler : Option Handler
  matchers : List Matcher
  regexpPath : Option RouteRegexp
  name : String
  err : Bool
  strictSlash : Bool
  deriving DecidableEq, Repr

/-- The router (`mux.Router`). -/
structure Router where
  routes : List MuxRoute
  NotFoundHandler : Option Handler
  MethodNotAllowedHandler : Option Handler
  strictSlash : Bool
  skipClean : Bool
  release : Release
  deriving DecidableEq, Repr

/-- Upper case of an ASCII string (`strings.ToUpper` on a method name without
characters outside ASCII). -/
def toUpper (s : String) : String := ⟨s.data.map Char.toUpper⟩

/-- The call `mux.NewRouter()`. -/
def Router.new (rel : Release) : Router :=
  { routes := [], NotFoundHandler := none, MethodNotAllowedHandler := none,
    strictSlash := false, skipClean := false, release := rel }

/-- The method `Router.StrictSlash`. -/
def Router.StrictSlash (r : Router) (value : Bool) : Router :=
  { r with strictSlash := value }

/-- The route that `Router.NewRoute` creates: empty, with the router's strict slash. -/
def Router.NewRoute (r : Router) : MuxRoute :=
  { handler := none, matchers := [], regexpPath := none, name := "", err := false,
    strictSlash := r.strictSlash }

/-- The method `Route.Methods`: the methods are stored in upper case. -/
def MuxRoute.Methods (r : MuxRoute) (methods : List String) : MuxRoute :=
  if r.err then r else { r with matchers := r.matchers ++ [.methods (methods.map toUpper)] }

/-- Removal of trailing slashes (`strings.TrimRight(s, "/")`). -/
def trimRightSlash (s : List Char) : List Char :=
  (s.reverse.dropWhile (fun c => c = '/')).reverse

/-- The method `Route.addRegexpMatcher` for path and prefix templates: the
template must start with a slash, is appended to a template the route already
has, and is compiled; the compiled template becomes the path template of the route
and one of its matchers. -/
def MuxRoute.addRegexpMatcher (r : MuxRoute) (tpl : List Char) (typ : RegexpType) : MuxRoute :=
  if r.err then r
  else if tpl ≠ [] ∧ tpl.head? ≠ some '/' then { r with err := true }
  else
    let full := match r.regexpPath with
      | some old => trimRightSlash old.template ++ tpl
      | none => tpl
    match newRouteRegexp full typ r.strictSlash with
    | none => { r with err := true }
    | some rr => { r with regexpPath := some rr, matchers := r.matchers ++ [.regexp rr] }

/-- The method `Route.Path`. -/
def MuxRoute.Path (r : MuxRoute) (tpl : String) : MuxRoute :=
  r.addRegexpMatcher tpl.data .path

/-- The method `Route.PathPrefix`. -/
def MuxRoute.PathPrefix (r : MuxRoute) (tpl : String) : MuxRoute :=
  r.addRegexpMatcher tpl.data .pathPrefix

/-- The method `Route.Name`: a route is named once. -/
def MuxRoute.Name (r : MuxRoute) (name : String) : MuxRoute :=
  let r1 := if r.name ≠ "" then { r with err := true } else r
  if r1.err then r1 else { r1 with name := name }

/-- The method `Route.Handler`. -/
def MuxRoute.Handler (r : MuxRoute) (h : Handler) : MuxRoute :=
  if r.err then r else { r with handler := some h }

/-- The errors a match records (`ErrMethodMismatch`, `ErrNotFound`). -/
inductive MatchError where
  | ErrMethodMismatch
  | ErrNotFound
  deriving DecidableEq, Repr

/-- The record a match fills in (`mux.RouteMatch`); `Route` is the position of the
matched route in the router. -/
structure RouteMatch where
  Route : Option Nat
  Handler : Option Handler
  Vars : List (List Char × List Char)
  MatchErr : Option MatchError
  deriving DecidableEq, Repr

/-- The empty match record. -/
def RouteMatch.empty : RouteMatch :=
  { Route := none, Handler := none, Vars := [], MatchErr := none }

/-- The loop of `Route.Match` over the matchers of a route. A method matcher that
fails is remembered (`mm`) and the loop goes on, in the releases that record method
mismatches; any other matcher that fails ends the match (`none` in the first
component); in the releases that do so, a matcher that succeeds clears a method
mismatch recorded by an earlier route. -/
def runMatchers (rel : Release) :
    List Matcher → Request → Bool → RouteMatch → Option Bool × RouteMatch
  | [], _, mm, m => (some mm, m)
  | k :: ks, req, mm, m =>
    if k.Match req then
      runMatchers rel ks req mm
        (if rel.clearOnMatch ∧ m.MatchErr = some .ErrMethodMismatch then
          { m with MatchErr := none } else m)
    else
      match k with
      | .methods _ => if rel.methodMismatch then runMatchers rel ks req true m else (none, m)
      | .regexp _ =>
        (none, if m.MatchErr = some .ErrNotFound then { m with MatchErr := none } else m)

/-- The method `routeRegexpGroup.setMatch` for the path template of a route: the
variables of the path are stored, and under strict slash a path that differs from
the template in its trailing slash gets the handler
`http.RedirectHandler(u.String(), 301)`, where `u` is the URL of the request
(`url.Parse(req.URL.String())`) with the slash removed from or added to its path. -/
def setMatch (r : MuxRoute) (req : Request) (m : RouteMatch) : RouteMatch :=
  match r.regexpPath with
  | none => m
  | some rr =>
    match rr.submatch req.URL.Path with
    | none => m
    | some vals =>
      let m1 := { m with Vars := m.Vars ++ rr.varsN.zip vals }
      if rr.strictSlash then
        let p1 := decide (req.URL.Path.getLast? = some '/')
        let p2 := decide (rr.template.getLast? = some '/')
        if p1 ≠ p2 then
          let u : URL :=
            if p1 then { req.URL with Path := req.URL.Path.dropLast }
            else { req.URL with Path := req.URL.Path ++ ['/'] }
          { m1 with Handler := some (.redirect u 301) }
        else m1
      else m1

/-- The method `Route.Match` of the route at position `i`. -/
def MuxRoute.Match (rel : Release) (r : MuxRoute) (i : Nat) (req : Request) (m : RouteMatch) :
    Bool × RouteMatch :=
  if r.err then (false, m)
  else
    match runMatchers rel r.matchers req false m with
    | (none, m1) => (false, m1)
    | (some true, m1) => (false, { m1 with MatchErr := some .ErrMethodMismatch })
    | (some false, m1) =>
      let m2 := if m1.MatchErr = some .ErrMethodMismatch ∧ r.handler.isSome then
          { m1 with MatchErr := none, Handler := r.handler }
        else m1
      let m3 := if m2.Route.isNone then { m2 with Route := some i } else m2
      let m4 := if m3.Handler.isNone then { m3 with Handler := r.handler } else m3
      (true, setMatch r req m4)

/-- The loop of `Router.Match` over the routes, from position `i` on: the first
route that matches ends it. -/
def matchRoutes (rel : Release) :
    List MuxRoute → Nat → Request → RouteMatch → Bool × RouteMatch
  | [], _, _, m => (false, m)
  | r :: rs, i, req, m =>
    match r.Match rel i req m with
    | (true, m1) => (true, m1)
    | (false, m1) => matchRoutes rel rs (i + 1) req m1

/-- The method `Router.Match`: the routes in order; when none matches, a method
mismatch is answered by the method-not-allowed handler if there is one, anything
else by the not-found handler if there is one, and recorded as `ErrNotFound` in
the releases that do so. In the release in which the not-found handler comes
first, a method mismatch without method-not-allowed handler goes on to the
not-found handler. -/
def Router.Match (r : Router) (req : Request) (m : RouteMatch) : Bool × RouteMatch :=
  match matchRoutes r.release r.routes 0 req m with
  | (true, m1) => (true, m1)
  | (false, m1) =>
    if m1.MatchErr = some .ErrMethodMismatch ∧
        ¬ (r.release.notFoundFirst ∧ r.MethodNotAllowedHandler = none) then
      match r.MethodNotAllowedHandler with
      | some h => (true, { m1 with Handler := some h })
      | none => (false, m1)
    else
      let e := if r.release.recordsNotFound then some MatchError.ErrNotFound else m1.MatchErr
      match r.NotFoundHandler with
      | some h => (true, { m1 with Handler := some h, MatchErr := e })
      | none => (false, { m1 with MatchErr := e })

/-- One element of a rooted path in `path.Clean`: an empty element and `.` are
dropped, `..` removes the last element kept (if any), any other is kept. -/
def cleanElem (out : List (List Char)) (e : List Char) : List (List Char) :=
  if e = [] ∨ e = ['.'] then out
  else if e = ['.', '.'] then out.dropLast
  else out ++ [e]

/-- The loop of `path.Clean` on a rooted path, after the leading slash: `out` holds
the elements kept so far, `cur` the element being read. -/
def cleanLoop : List Char → List (List Char) → List Char → List (List Char)
  | [], out, cur => cleanElem out cur
  | c :: cs, out, cur =>
    if c = '/' then cleanLoop cs (cleanElem out cur) [] else cleanLoop cs out (cur ++ [c])

/-- The elements joined by slashes. -/
def joinSlash : List (List Char) → List Char
  | [] => []
  | [e] => e
  | e :: es => e ++ '/' :: joinSlash es

/-- The function `path.Clean` on a rooted path (the only kind `cleanPath` gives it). -/
def Clean (p : List Char) : List Char :=
  match p with
  | '/' :: rest => '/' :: joinSlash (cleanLoop rest [] [])
  | _ => p

/-- The function `cleanPath` of the router: the empty path is `/`, a missing
leading slash is added, the path is cleaned, and a trailing slash that cleaning
removed is put back. -/
def cleanPath (p : List Char) : List Char :=
  if p = [] then ['/']
  else
    let p1 := if p.head? ≠ some '/' then '/' :: p else p
    let np := Clean p1
    if p1.getLast? = some '/' ∧ np ≠ ['/'] then np ++ ['/'] else np

/-- What `Router.ServeHTTP` does with a request. -/
inductive Response where
  /-- The path is not clean: status 301; the `Location` is made of the URL of the
  request with the clean path in place of its path. -/
  | movedPermanently (location : URL)
  /-- The handler that serves the request, and the match record it came from. -/
  | handled (h : Handler) (m : RouteMatch)
  deriving DecidableEq, Repr

/-- The method `Router.ServeHTTP`. -/
def Router.ServeHTTP (r : Router) (req : Request) : Response :=
  if ¬ r.skipClean ∧ cleanPath req.URL.Path ≠ req.URL.Path then
    .movedPermanently { req.URL with Path := cleanPath req.URL.Path }
  else
    match r.Match req RouteMatch.empty with
    | (true, m) =>
      (match m.Handler with
       | some h => .handled h m
       | none =>
         if m.MatchErr = some .ErrMethodMismatch then .handled .methodNotAllowed m
         else .handled .httpNotFound m)
    | (false, m) =>
      if m.MatchErr = some .ErrMethodMismatch then .handled .methodNotAllowed m
      else .handled .httpNotFound m

/-! ## The source: `NewRouter` -/

/-- The body of the loop of `NewRouter` for one route of the table: the handler is
the route's function wrapped by `Logger` under the route's name, and the route is
registered with `Methods`, `Path`, `Name` and `Handler`. -/
def registerRoute (router : Router) (route : Route) : Router :=
  let handler := Handler.logger route.HandlerFunc route.Name
  { router with
    routes := router.routes ++
      [(((router.NewRoute.Methods [route.Method]).Path route.Pattern).Name route.Name).Handler handler] }

/-- The factory `NewRouter` over a table `table`, for the release `rel` of the
router library and the configured assets directory `assetsDir`
(`Config.App.AssetsDir`): a strict-slash router, the routes of the table in
order, the not-found handler, then the static prefix route. -/
def NewRouterOver (table : Routes) (rel : Release) (assetsDir : String) : Router :=
  let router := (Router.new rel).StrictSlash true
  let router := table.foldl registerRoute router
  let router := { router with NotFoundHandler := some (.logger .notFoundFunc "404") }
  { router with
    routes := router.routes ++
      [(router.NewRoute.PathPrefix staticDirPathPrefix).Handler
        (.stripPrefix staticDirPathPrefix (.fileServer assetsDir))] }

/-- NewRouter factory, over the declared table `routes`. -/
def NewRouter (rel : Release) (assetsDir : String) : Router :=
  NewRouterOver routes rel assetsDir

/-- The request `method path`, without query. -/
def mkReq (method path : String) : Request :=
  { Method := method, URL := { Path := path.data, RawQuery := [] } }

/-! ## Derived notions used in the statements and proofs -/

/-- A route with one method and a path template, as the loop of `NewRouter`
registers it. -/
def stdRoute (method : String) (rr : RouteRegexp) (h : Handler) (name : String) : MuxRoute :=
  { handler := some h, matchers := [.methods [method], .regexp rr], regexpPath := some rr,
    name := name, err := false, strictSlash := true }

/-- The compiled template of the pattern `/` under strict slash: `^[/]?$`. -/
def rrRoot : RouteRegexp :=
  { template := ['/'], regexpType := .path, strictSlash := true, pieces := [.lit []],
    optSlash := true, anchored := true, varsN := [] }

/-- The compiled template of `/styleguide` under strict slash: `^/styleguide[/]?$`. -/
def rrStyle : RouteRegexp :=
  { template := "/styleguide".data, regexpType := .path, strictSlash := true,
    pieces := [.lit "/styleguide".data], optSlash := true, anchored := true, varsN := [] }

/-- The compiled template of `/{token}/` under strict slash: `^/(?P<v0>[^/]+)[/]?$`. -/
def rrToken : RouteRegexp :=
  { template := "/{token}/".data, regexpType := .path, strictSlash := true,
    pieces := [.lit ['/'], .var "token".data, .lit []], optSlash := true, anchored := true,
    varsN := ["token".data] }

/-- The compiled template of the prefix `/static/`: `^/static/`. -/
def rrStatic : RouteRegexp :=
  { template := "/static/".data, regexpType := .pathPrefix, strictSlash := false,
    pieces := [.lit "/static/".data], optSlash := false, anchored := false, varsN := [] }

/-- The static prefix route, as `NewRouter` registers it. -/
def staticRoute (assetsDir : String) : MuxRoute :=
  { handler := some (.stripPrefix staticDirPathPrefix (.fileServer assetsDir)),
    matchers := [.regexp rrStatic], regexpPath := some rrStatic, name := "", err := false,
    strictSlash := true }

/-- The match record while no route has matched: nothing is set but, possibly, a
method mismatch. -/
def pending (b : Bool) : RouteMatch :=
  { Route := none, Handler := none, Vars := [],
    MatchErr := if b then some .ErrMethodMismatch else none }

/-- The end of an anchored expression with `[/]?`: nothing, or one slash. -/
def endOK (t : List Char) : Bool := decide (t = [] ∨ t = ['/'])

/-- A character other than the slash (the class `[^/]`). -/
def notSlash (c : Char) : Bool := decide (c ≠ '/')

/-- The token of a path after its leading slash: the characters up to the first
slash, when there is at least one and nothing but at most one slash follows. -/
def tokenOf (q : List Char) : Option (List Char) :=
  if q.takeWhile notSlash ≠ [] ∧ endOK (q.dropWhile notSlash) then
    some (q.takeWhile notSlash)
  else none

/-- A route matches a request when it has no error and all its matchers match. -/
def fullMatch (r : MuxRoute) (req : Request) : Bool :=
  !r.err && r.matchers.all (fun k => k.Match req)

/-- Whether the matcher is a method matcher. -/
def Matcher.isMethods : Matcher → Bool
  | .methods _ => true
  | .regexp _ => false

/-- The matchers of the route other than the method matchers all match. -/
def pathMatch (r : MuxRoute) (req : Request) : Bool :=
  r.matchers.all (fun k => k.isMethods || k.Match req)

/-- The path is an instance of the pattern: it matches the template as written,
compiled without strict slash. -/
def patternMatches (pat : String) (p : List Char) : Bool :=
  match newRouteRegexp pat.data .path false with
  | some rr => rr.Match p
  | none => false

/-- The path matches the pattern as the strict-slash router compiles it: with or
without the trailing slash. -/
def patternMatchesStrict (pat : String) (p : List Char) : Bool :=
  match newRouteRegexp pat.data .path true with
  | some rr => rr.Match p
  | none => false

/-- The request is matched by the declared route under the matching rules of the
router: the method exactly, the pattern under strict slash. -/
def routeMatches (r : Route) (req : Request) : Bool :=
  decide (req.Method = toUpper r.Method) && patternMatchesStrict r.Pattern req.URL.Path

/-- The declared route a response comes from: the position of the matched route
when it is a route of the table, `none` otherwise. -/
def declaredRoute : Response → Option Nat
  | .handled _ m => m.Route.filter (fun i => decide (i < routes.length))
  | .movedPermanently _ => none

/-- The canonical form of a path for a pattern under strict slash: with a trailing
slash when the pattern has one, without when it has none. -/
def canonicalPath (pat : String) (p : List Char) : List Char :=
  if pat.data.getLast? = some '/' then
    (if p.getLast? = some '/' then p else p ++ ['/'])
  else
    (if p.getLast? = some '/' then p.dropLast else p)

/-- The answers to a request under the four kinds of release of the router library,
for the router built over a table. -/
def serveAllOver (table : Routes) (assetsDir : String) (req : Request) : List Response :=
  [(NewRouterOver table .noMismatch assetsDir).ServeHTTP req,
   (NewRouterOver table .customFirst assetsDir).ServeHTTP req,
   (NewRouterOver table .notAllowed assetsDir).ServeHTTP req,
   (NewRouterOver table .cleared assetsDir).ServeHTTP req]

/-- The answers to a request under the four kinds of release of the router library. -/
def serveAll (assetsDir : String) (req : Request) : List Response :=
  serveAllOver routes assetsDir req

/-- The position, counted from `i`, of the first route that matches the request. -/
def firstMatch : List MuxRoute → Request → Nat → Option Nat
  | [], _, _ => none
  | r :: rs, req, i => if fullMatch r req then some i else firstMatch rs req (i + 1)

/-- The route that the loop of `NewRouter` registers for a route of the table, in a
router with the given strict-slash setting. -/
def routeFor (strict : Bool) (route : Route) : MuxRoute :=
  ((((MuxRoute.mk none [] none "" false strict).Methods [route.Method]).Path route.Pattern).Name
    route.Name).Handler (Handler.logger route.HandlerFunc route.Name)

/-- Whether a template stays within the templates compiled here: no variable with a
custom pattern `{name:pattern}` and no brace within braces (`inVar` tells whether the
scan is inside braces). -/
def simpleTemplate : List Char → Bool → Bool
  | [], _ => true
  | c :: cs, false => if c = '{' then simpleTemplate cs true else simpleTemplate cs false
  | c :: cs, true =>
    if c = '}' then simpleTemplate cs false
    else if c = '{' ∨ c = ':' then false
    else simpleTemplate cs true

/-- Whether a route of a table stays within what is embedded here of the library: an
ASCII method name and a pattern with plain variables only. -/
def plainRoute (r : Route) : Bool :=
  r.Method.data.all (fun c => decide (c.val < 128)) && simpleTemplate r.Pattern.data false


/-! ## Lemmas on the router library -/

variable {q : List Char}

theorem NewRouter_eq (rel : Release) (dir : String) :
    NewRouter rel dir =
      { routes :=
          [ stdRoute "GET" rrRoot (.logger (.func "IndexAction") "Index") "Index",
            stdRoute "GET" rrStyle (.logger (.func "StyleguideAction") "Styleguide") "Styleguide",
            stdRoute "POST" rrRoot (.logger (.func "NewMessageAction") "NewMessage") "NewMessage",
            stdRoute "GET" rrToken (.logger (.func "ShowAction") "ShowMessage") "ShowMessage",
            stdRoute "DELETE" rrToken (.logger (.func "DeleteMessageAction") "DeleteMessage")
              "DeleteMessage",
            staticRoute dir ],
        NotFoundHandler := some (.logger .notFoundFunc "404"),
        MethodNotAllowedHandler := none, strictSlash := true, skipClean := false,
        release := rel } := by
  rfl

theorem pending_false : RouteMatch.empty = pending false := rfl

theorem matchPieces_end (t : List Char) :
    matchPieces [] true true t = if endOK t then some [] else none := by
  unfold matchPieces endOK
  rcases t with _ | ⟨c, t⟩
  · simp
  · by_cases hc : c = '/'
    · subst hc; cases t <;> simp
    · simp [hc]

theorem matchPieces_lit_end (raw s : List Char) :
    matchPieces [.lit raw] true true s =
      if raw.isPrefixOf s then (if endOK (s.drop raw.length) then some [] else none)
      else none := by
  rw [matchPieces, matchPieces_end]

theorem rrRoot_submatch (p : List Char) :
    rrRoot.submatch p = if endOK p then some [] else none := by
  simp [RouteRegexp.submatch, rrRoot, matchPieces_lit_end]

theorem rrStyle_submatch (p : List Char) :
    rrStyle.submatch p =
      if p = "/styleguide".data ∨ p = "/styleguide/".data then some [] else none := by
  simp only [RouteRegexp.submatch, rrStyle, matchPieces_lit_end]
  by_cases h : "/styleguide".data.isPrefixOf p
  · obtain ⟨t, rfl⟩ := List.isPrefixOf_iff_prefix.mp h
    rw [if_pos h]
    simp [endOK]
  · rw [if_neg h]
    have h1 : p ≠ "/styleguide".data := by rintro rfl; exact h (by decide)
    have h2 : p ≠ "/styleguide/".data := by rintro rfl; exact h (by decide)
    simp [h1, h2]

theorem rrStatic_submatch (p : List Char) :
    rrStatic.submatch p = if "/static/".data.isPrefixOf p then some [] else none := by
  simp [RouteRegexp.submatch, rrStatic, matchPieces]

theorem findSome_map_option {α β γ : Type} (f : α → Option β) (g : β → γ) (l : List α) :
    l.findSome? (fun a => (f a).map g) = (l.findSome? f).map g := by
  induction l with
  | nil => rfl
  | cons a l ih =>
    simp only [List.findSome?]
    cases f a <;> simp [ih]

theorem tokenOf_cons_slash (cs : List Char) : tokenOf ('/' :: cs) = none := by
  simp [tokenOf, notSlash]

theorem tokenOf_cons (c : Char) (cs : List Char) (hc : c ≠ '/') :
    tokenOf (c :: cs) =
      ((tokenOf cs).map (fun v => c :: v)).or (if endOK cs then some [c] else none) := by
  have hn : notSlash c = true := by simp [notSlash, hc]
  have hsplit := List.takeWhile_append_dropWhile notSlash cs
  have hmem : ∀ x ∈ List.takeWhile notSlash cs, notSlash x = true :=
    fun x hx => List.mem_takeWhile_imp hx
  unfold tokenOf
  simp only [List.takeWhile_cons, List.dropWhile_cons, hn, if_true]
  generalize List.takeWhile notSlash cs = tw at hsplit hmem ⊢
  generalize List.dropWhile notSlash cs = dw at hsplit ⊢
  rcases tw with _ | ⟨a, tw⟩
  · simp at hsplit; subst hsplit
    by_cases h : endOK dw = true <;> simp [h]
  · by_cases h : endOK dw = true
    · simp [h]
    · have hcs : endOK cs = false := by
        subst hsplit
        simp only [endOK, List.cons_append, decide_eq_false_iff_not, not_or]
        constructor
        · simp
        · intro h2
          have h3 := (List.cons.inj h2).1
          have h4 := hmem a (List.mem_cons_self a tw)
          rw [h3] at h4
          simp [notSlash] at h4
      simp [h, hcs]

theorem varSplits_findSome (q : List Char) :
    (varSplits q).findSome? (fun tr => if endOK tr.2 then some tr.1 else none) = tokenOf q := by
  induction q with
  | nil => simp [varSplits, tokenOf]
  | cons c cs ih =>
    by_cases hc : c = '/'
    · subst hc; simp [varSplits, tokenOf_cons_slash]
    · simp only [varSplits, hc, if_false, List.findSome?_append, List.findSome?_map]
      have : ((fun tr : List Char × List Char => if endOK tr.2 then some tr.1 else none) ∘
            (fun tr : List Char × List Char => (c :: tr.1, tr.2))) =
          fun tr => (if endOK tr.2 then some tr.1 else none).map (fun v => c :: v) := by
        funext tr
        simp only [Function.comp]
        split <;> simp
      rw [this, findSome_map_option, ih, tokenOf_cons c cs hc]
      congr 1
      simp only [List.findSome?]
      split <;> simp_all

theorem rrToken_submatch (p : List Char) :
    rrToken.submatch p =
      match p with
      | '/' :: q => (tokenOf q).map (fun s => [s])
      | _ => none := by
  have hf : (fun tr : List Char × List Char =>
        (matchPieces [.lit []] true true tr.2).map (fun vs => tr.1 :: vs)) =
      fun tr => (if endOK tr.2 then some tr.1 else none).map (fun s => [s]) := by
    funext tr
    rw [matchPieces_lit_end]
    by_cases h : endOK tr.2 = true <;> simp [h]
  have hv : ∀ q, matchPieces [.var "token".data, .lit []] true true q =
      (tokenOf q).map (fun s => [s]) := by
    intro q
    rw [matchPieces, hf, findSome_map_option, varSplits_findSome]
  simp only [RouteRegexp.submatch, rrToken]
  rw [matchPieces, hv]
  rcases p with _ | ⟨c, q⟩
  · simp
  · by_cases hc : c = '/'
    · subst hc; simp
    · have hc2 : ¬ '/' = c := fun h => hc h.symm
      simp [hc, hc2]

theorem runMatchers_cons_pos (rel : Release) (req : Request) (k : Matcher) (ks : List Matcher)
    (mm : Bool) (m : RouteMatch) (hk : k.Match req = true) :
    runMatchers rel (k :: ks) req mm m =
      runMatchers rel ks req mm
        (if rel.clearOnMatch ∧ m.MatchErr = some .ErrMethodMismatch then
          { m with MatchErr := none } else m) := by
  rw [runMatchers.eq_def]
  simp only [hk, if_true]

theorem runMatchers_cons_methods (rel : Release) (req : Request) (ms : List String)
    (ks : List Matcher) (mm : Bool) (m : RouteMatch) (hk : (Matcher.methods ms).Match req = false) :
    runMatchers rel (.methods ms :: ks) req mm m =
      if rel.methodMismatch then runMatchers rel ks req true m else (none, m) := by
  rw [runMatchers.eq_def]
  simp only [hk, Bool.false_eq_true, if_false]

theorem runMatchers_cons_regexp (rel : Release) (req : Request) (rr : RouteRegexp)
    (ks : List Matcher) (mm : Bool) (m : RouteMatch) (hk : (Matcher.regexp rr).Match req = false) :
    runMatchers rel (.regexp rr :: ks) req mm m =
      (none, if m.MatchErr = some .ErrNotFound then { m with MatchErr := none } else m) := by
  rw [runMatchers.eq_def]
  simp only [hk, Bool.false_eq_true, if_false]

theorem runMatchers_fst (rel : Release) (req : Request) (ks : List Matcher) (mm : Bool)
    (m : RouteMatch) :
    (runMatchers rel ks req mm m).1 = some false ↔
      (mm = false ∧ ks.all (fun k => k.Match req) = true) := by
  induction ks generalizing mm m with
  | nil => simp [runMatchers]
  | cons k ks ih =>
    cases hk : k.Match req
    · have hall : (k :: ks).all (fun k => k.Match req) = false := by simp [hk]
      rw [hall]
      cases k with
      | methods ms =>
        rw [runMatchers_cons_methods rel req ms ks mm m hk]
        by_cases hmm : rel.methodMismatch = true
        · rw [if_pos hmm, ih]; simp
        · rw [if_neg hmm]; simp
      | regexp rr =>
        rw [runMatchers_cons_regexp rel req rr ks mm m hk]; simp
    · rw [runMatchers_cons_pos rel req k ks mm m hk, ih]
      simp [hk]

theorem runMatchers_snd (rel : Release) (req : Request) (ks : List Matcher) (mm : Bool)
    (b : Bool) :
    ∃ b2, (runMatchers rel ks req mm (pending b)).2 = pending b2 ∧ (b2 = true → b = true) := by
  induction ks generalizing mm b with
  | nil => exact ⟨b, rfl, id⟩
  | cons k ks ih =>
    cases hk : k.Match req
    · cases k with
      | methods ms =>
        rw [runMatchers_cons_methods rel req ms ks mm _ hk]
        by_cases hmm : rel.methodMismatch = true
        · rw [if_pos hmm]; exact ih true b
        · rw [if_neg hmm]; exact ⟨b, rfl, id⟩
      | regexp rr =>
        rw [runMatchers_cons_regexp rel req rr ks mm _ hk]
        refine ⟨b, ?_, id⟩
        cases b <;> simp [pending]
    · rw [runMatchers_cons_pos rel req k ks mm _ hk]
      by_cases hc : rel.clearOnMatch = true ∧ (pending b).MatchErr = some .ErrMethodMismatch
      · rw [if_pos hc]
        obtain ⟨b2, h1, h2⟩ := ih mm false
        refine ⟨b2, ?_, fun h => by simpa using h2 h⟩
        rw [← h1]; rfl
      · rw [if_neg hc]; exact ih mm b

theorem runMatchers_path (rel : Release) (req : Request) (ks : List Matcher) (mm : Bool)
    (m : RouteMatch) (h : ks.all (fun k => k.isMethods || k.Match req) = false) :
    (runMatchers rel ks req mm m).1 = none := by
  induction ks generalizing mm m with
  | nil => simp at h
  | cons k ks ih =>
    cases hk : k.Match req
    · cases k with
      | methods ms =>
        rw [runMatchers_cons_methods rel req ms ks mm _ hk]
        by_cases hmm : rel.methodMismatch = true
        · rw [if_pos hmm]; apply ih; simpa [Matcher.isMethods] using h
        · rw [if_neg hmm]
      | regexp rr =>
        rw [runMatchers_cons_regexp rel req rr ks mm _ hk]
    · rw [runMatchers_cons_pos rel req k ks mm _ hk]
      apply ih
      simpa [hk] using h

theorem Match_fst (rel : Release) (r : MuxRoute) (i : Nat) (req : Request) (m : RouteMatch) :
    (r.Match rel i req m).1 = fullMatch r req := by
  unfold MuxRoute.Match fullMatch
  by_cases he : r.err = true
  · simp [he]
  · simp only [he, if_false, Bool.not_false, Bool.true_and, Bool.false_eq_true]
    have h := runMatchers_fst rel req r.matchers false m
    rcases hr : runMatchers rel r.matchers req false m with ⟨o, m1⟩
    rw [hr] at h
    cases hall : r.matchers.all (fun k => k.Match req)
    · rw [hall] at h
      rcases o with _ | _ | _
      · rfl
      · simp at h
      · rfl
    · rw [hall] at h
      have h2 : o = some false := h.mpr ⟨rfl, rfl⟩
      subst h2
      rfl

/-- A failed match leaves the record pending. -/
theorem Match_snd_of_fail (rel : Release) (r : MuxRoute) (i : Nat) (req : Request) (b : Bool)
    (h : fullMatch r req = false) :
    ∃ b2, r.Match rel i req (pending b) = (false, pending b2) ∧
      (b2 = true → b = true ∨ (pathMatch r req = true ∧ r.err = false)) := by
  have hfst := Match_fst rel r i req (pending b)
  rw [h] at hfst
  unfold MuxRoute.Match at hfst ⊢
  by_cases he : r.err = true
  · simp only [he, if_true]
    exact ⟨b, rfl, fun hb => Or.inl hb⟩
  · simp only [he, if_false, Bool.false_eq_true] at hfst ⊢
    obtain ⟨b2, hb2, himp⟩ := runMatchers_snd rel req r.matchers false b
    have hpath := runMatchers_path rel req r.matchers false (pending b)
    rcases hr : runMatchers rel r.matchers req false (pending b) with ⟨o, m1⟩
    rw [hr] at hfst hb2 hpath
    simp only at hb2
    subst hb2
    rcases o with _ | _ | _
    · exact ⟨b2, rfl, fun hb => Or.inl (himp hb)⟩
    · simp at hfst
    · refine ⟨true, rfl, fun _ => ?_⟩
      right
      refine ⟨?_, by simp [he]⟩
      unfold pathMatch
      cases hp : r.matchers.all (fun k => k.isMethods || k.Match req)
      · exact absurd (hpath hp) (by simp)
      · rfl

/-- A successful match of a route with a handler fills the record in. -/
theorem Match_of_success (rel : Release) (r : MuxRoute) (i : Nat) (req : Request) (b : Bool)
    (hd : Handler) (hh : r.handler = some hd) (h : fullMatch r req = true) :
    r.Match rel i req (pending b) =
      (true, setMatch r req { Route := some i, Handler := some hd, Vars := [], MatchErr := none }) := by
  have hfst := Match_fst rel r i req (pending b)
  rw [h] at hfst
  unfold MuxRoute.Match at hfst ⊢
  by_cases he : r.err = true
  · simp [he] at hfst
  · simp only [he, if_false, Bool.false_eq_true] at hfst ⊢
    obtain ⟨b2, hb2, -⟩ := runMatchers_snd rel req r.matchers false b
    rcases hr : runMatchers rel r.matchers req false (pending b) with ⟨o, m1⟩
    rw [hr] at hfst hb2
    simp only at hb2
    subst hb2
    rcases o with _ | _ | _
    · simp at hfst
    · cases b2 <;> simp [pending, hh]
    · simp at hfst

theorem setMatch_Route (r : MuxRoute) (req : Request) (m : RouteMatch) :
    (setMatch r req m).Route = m.Route := by
  unfold setMatch
  rcases r.regexpPath with _ | rr
  · rfl
  · simp only
    rcases rr.submatch req.URL.Path with _ | vals
    · rfl
    · simp only
      split
      · split <;> rfl
      · rfl

/-- The first route that matches ends the loop over the routes. -/
theorem matchRoutes_first (rel : Release) (req : Request) (pre : List MuxRoute) (r : MuxRoute)
    (post : List MuxRoute) (i : Nat) (b : Bool) (hd : Handler)
    (hpre : ∀ x ∈ pre, fullMatch x req = false) (hr : fullMatch r req = true)
    (hh : r.handler = some hd) :
    matchRoutes rel (pre ++ r :: post) i req (pending b) =
      (true, setMatch r req
        { Route := some (i + pre.length), Handler := some hd, Vars := [], MatchErr := none }) := by
  induction pre generalizing i b with
  | nil =>
    simp only [List.nil_append, matchRoutes, Match_of_success rel r i req b hd hh hr,
      List.length_nil, Nat.add_zero]
  | cons x pre ih =>
    obtain ⟨b2, h2, -⟩ := Match_snd_of_fail rel x i req b (hpre x (List.mem_cons_self x pre))
    have e : matchRoutes rel ((x :: pre) ++ r :: post) i req (pending b) =
        matchRoutes rel (pre ++ r :: post) (i + 1) req (pending b2) := by
      rw [List.cons_append, matchRoutes, h2]
    rw [e, ih (i + 1) b2 (fun y hy => hpre y (List.mem_cons_of_mem x hy))]
    simp only [List.length_cons]
    congr 4
    omega

/-- When no route matches, the record stays pending; a method mismatch is recorded
only if it was before or some route without error matches but for its method. -/
theorem matchRoutes_none (rel : Release) (req : Request) (rs : List MuxRoute) (i : Nat)
    (b : Bool) (h : ∀ x ∈ rs, fullMatch x req = false) :
    ∃ b2, matchRoutes rel rs i req (pending b) = (false, pending b2) ∧
      (b2 = true → b = true ∨ ∃ x ∈ rs, pathMatch x req = true ∧ x.err = false) := by
  induction rs generalizing i b with
  | nil => exact ⟨b, rfl, fun hb => Or.inl hb⟩
  | cons x rs ih =>
    obtain ⟨b1, h1, himp1⟩ := Match_snd_of_fail rel x i req b (h x (List.mem_cons_self x rs))
    obtain ⟨b2, h2, himp2⟩ := ih (i + 1) b1 (fun y hy => h y (List.mem_cons_of_mem x hy))
    refine ⟨b2, by simp only [matchRoutes, h1, h2], fun hb => ?_⟩
    rcases himp2 hb with hb1 | ⟨y, hy, hp⟩
    · rcases himp1 hb1 with hb0 | hp
      · exact Or.inl hb0
      · exact Or.inr ⟨x, List.mem_cons_self x rs, hp⟩
    · exact Or.inr ⟨y, List.mem_cons_of_mem x hy, hp⟩

theorem setMatch_Handler (r : MuxRoute) (req : Request) (m : RouteMatch) :
    (setMatch r req m).Handler = m.Handler ∨
      ∃ u, (setMatch r req m).Handler = some (.redirect u 301) := by
  unfold setMatch
  rcases r.regexpPath with _ | rr
  · exact Or.inl rfl
  · simp only
    rcases rr.submatch req.URL.Path with _ | vals
    · exact Or.inl rfl
    · simp only
      split
      · split
        · exact Or.inr ⟨_, rfl⟩
        · exact Or.inl rfl
      · exact Or.inl rfl

/-- The loop over the routes either stops at the first route that matches, or no
route matches and the record stays pending. -/
theorem matchRoutes_cases (rel : Release) (req : Request) (rs : List MuxRoute) (i : Nat)
    (b : Bool) (hh : ∀ r ∈ rs, r.err = false → ∃ hd, r.handler = some hd) :
    (∃ pre r post hd, rs = pre ++ r :: post ∧ (∀ x ∈ pre, fullMatch x req = false) ∧
        fullMatch r req = true ∧ r.handler = some hd ∧
        matchRoutes rel rs i req (pending b) =
          (true, setMatch r req
            { Route := some (i + pre.length), Handler := some hd, Vars := [], MatchErr := none })) ∨
      ((∀ x ∈ rs, fullMatch x req = false) ∧
        ∃ b2, matchRoutes rel rs i req (pending b) = (false, pending b2) ∧
          (b2 = true → b = true ∨ ∃ x ∈ rs, pathMatch x req = true ∧ x.err = false)) := by
  by_cases hall : ∀ x ∈ rs, fullMatch x req = false
  · exact Or.inr ⟨hall, matchRoutes_none rel req rs i b hall⟩
  · left
    have hex : ∃ x ∈ rs, (fun x => fullMatch x req) x = true := by
      by_contra hcon
      apply hall
      intro x hx
      cases hfm : fullMatch x req
      · rfl
      · exact absurd ⟨x, hx, hfm⟩ hcon
    have hany : rs.any (fun x => fullMatch x req) = true := List.any_eq_true.mpr hex
    clear hex hall
    induction rs generalizing i b with
    | nil => simp at hany
    | cons x rs ih =>
      cases hx : fullMatch x req
      · have hany2 : rs.any (fun x => fullMatch x req) = true := by simpa [hx] using hany
        obtain ⟨b1, h1, -⟩ := Match_snd_of_fail rel x i req b hx
        obtain ⟨pre, r, post, hd, hrs, hpre, hr, hhd, hres⟩ :=
          ih (i + 1) b1 (fun r hr => hh r (List.mem_cons_of_mem x hr)) hany2
        refine ⟨x :: pre, r, post, hd, by rw [hrs]; rfl, ?_, hr, hhd, ?_⟩
        · intro y hy
          rcases List.mem_cons.mp hy with rfl | hy
          · exact hx
          · exact hpre y hy
        · rw [matchRoutes, h1]
          simp only
          rw [hres]
          simp only [List.length_cons]
          congr 4
          omega
      · have herr : x.err = false := by
          cases he : x.err
          · rfl
          · simp [fullMatch, he] at hx
        obtain ⟨hd, hhd⟩ := hh x (List.mem_cons_self x rs) herr
        refine ⟨[], x, rs, hd, rfl, by simp, hx, hhd, ?_⟩
        rw [matchRoutes, Match_of_success rel x i req b hd hhd hx]
        rfl

/-! ## Lemmas on the router that `NewRouter` builds -/

theorem fullMatch_stdRoute (M : String) (rr : RouteRegexp) (h : Handler) (name m : String)
    (p : List Char) :
    fullMatch (stdRoute M rr h name) ⟨m, ⟨p, q⟩⟩ = (decide (m = M) && rr.Match p) := by
  simp [fullMatch, stdRoute, Matcher.Match]

theorem pathMatch_stdRoute (M : String) (rr : RouteRegexp) (h : Handler) (name m : String)
    (p : List Char) :
    pathMatch (stdRoute M rr h name) ⟨m, ⟨p, q⟩⟩ = rr.Match p := by
  simp [pathMatch, stdRoute, Matcher.Match, Matcher.isMethods]

theorem fullMatch_staticRoute (dir m : String) (p : List Char) :
    fullMatch (staticRoute dir) ⟨m, ⟨p, q⟩⟩ = rrStatic.Match p := by
  simp [fullMatch, staticRoute, Matcher.Match]

theorem pathMatch_staticRoute (dir m : String) (p : List Char) :
    pathMatch (staticRoute dir) ⟨m, ⟨p, q⟩⟩ = rrStatic.Match p := by
  simp [pathMatch, staticRoute, Matcher.Match, Matcher.isMethods]

theorem rrRoot_Match (p : List Char) : rrRoot.Match p = endOK p := by
  rw [RouteRegexp.Match, rrRoot_submatch]; split <;> simp_all

theorem rrStyle_Match (p : List Char) :
    rrStyle.Match p = decide (p = "/styleguide".data ∨ p = "/styleguide/".data) := by
  rw [RouteRegexp.Match, rrStyle_submatch]; split <;> simp_all

theorem rrStatic_Match (p : List Char) : rrStatic.Match p = "/static/".data.isPrefixOf p := by
  rw [RouteRegexp.Match, rrStatic_submatch]
  cases h : "/static/".data.isPrefixOf p <;> simp

theorem rrToken_Match_cons (q : List Char) : rrToken.Match ('/' :: q) = (tokenOf q).isSome := by
  rw [RouteRegexp.Match, rrToken_submatch]; simp

theorem tokenOf_eq_some (q s : List Char) (h : tokenOf q = some s) :
    s ≠ [] ∧ '/' ∉ s ∧ (q = s ∨ q = s ++ ['/']) := by
  unfold tokenOf at h
  split at h
  · rename_i hc
    have hs : List.takeWhile notSlash q = s := Option.some.inj h
    have hsplit := List.takeWhile_append_dropWhile notSlash q
    rw [hs] at hc hsplit
    refine ⟨hc.1, ?_, ?_⟩
    · intro hmem
      rw [← hs] at hmem
      have := List.mem_takeWhile_imp hmem
      simp [notSlash] at this
    · have hend := hc.2
      simp only [endOK, decide_eq_true_eq] at hend
      rcases hend with h0 | h1
      · left; rw [← hsplit, h0, List.append_nil]
      · right; rw [← hsplit, h1]
  · exact absurd h (by simp)

theorem takeWhile_notSlash (s t : List Char) (hs : '/' ∉ s) (ht : t = [] ∨ t = ['/']) :
    (s ++ t).takeWhile notSlash = s ∧ (s ++ t).dropWhile notSlash = t := by
  induction s with
  | nil => rcases ht with rfl | rfl <;> simp [notSlash]
  | cons c s ih =>
    have hc : notSlash c = true := by
      simp only [notSlash, ne_eq, decide_eq_true_eq]
      rintro rfl
      exact hs (List.mem_cons_self _ _)
    have := ih (fun h => hs (List.mem_cons_of_mem c h))
    simp [List.takeWhile_cons, List.dropWhile_cons, hc, this]

theorem tokenOf_of (s t : List Char) (hne : s ≠ []) (hs : '/' ∉ s) (ht : t = [] ∨ t = ['/']) :
    tokenOf (s ++ t) = some s := by
  obtain ⟨h1, h2⟩ := takeWhile_notSlash s t hs ht
  unfold tokenOf
  rw [h1, h2, if_pos]
  refine ⟨hne, ?_⟩
  simp [endOK, ht]

/-! ## Serving a request with the router of `NewRouter` -/

theorem NewRouter_routes_handler (rel : Release) (dir : String) :
    ∀ r ∈ (NewRouter rel dir).routes, r.err = false → ∃ hd, r.handler = some hd := by
  intro r hr _
  rw [NewRouter_eq] at hr
  simp only [List.mem_cons, List.mem_singleton, List.not_mem_nil, or_false] at hr
  rcases hr with rfl | rfl | rfl | rfl | rfl | rfl <;> exact ⟨_, rfl⟩

/-- Serving a clean path that a route matches: the handler of the match record. -/
theorem serve_of_match (R : Router) (req : Request) (m1 : RouteMatch) (h : Handler)
    (hclean : cleanPath req.URL.Path = req.URL.Path)
    (hm : matchRoutes R.release R.routes 0 req (pending false) = (true, m1))
    (hh : m1.Handler = some h) :
    R.ServeHTTP req = .handled h m1 := by
  unfold Router.ServeHTTP Router.Match
  rw [pending_false, hm]
  simp [hclean, hh]

/-- Serving a clean path that no route matches, with the not-found handler set and
no method-not-allowed handler. -/
theorem serve_of_nomatch (R : Router) (req : Request) (b2 : Bool) (nf : Handler)
    (hclean : cleanPath req.URL.Path = req.URL.Path)
    (hm : matchRoutes R.release R.routes 0 req (pending false) = (false, pending b2))
    (hnf : R.NotFoundHandler = some nf) (hna : R.MethodNotAllowedHandler = none) :
    R.ServeHTTP req =
      if b2 = true ∧ R.release.notFoundFirst = false then
        .handled .methodNotAllowed (pending true)
      else .handled nf
        { Route := none, Handler := some nf, Vars := [],
          MatchErr := if R.release.recordsNotFound then some .ErrNotFound
            else (pending b2).MatchErr } := by
  unfold Router.ServeHTTP Router.Match
  rw [pending_false, hm]
  cases b2 <;> cases hf : R.release.notFoundFirst <;> simp [hclean, hnf, hna, pending, hf]

theorem serve_unclean (R : Router) (req : Request) (hs : R.skipClean = false)
    (hclean : cleanPath req.URL.Path ≠ req.URL.Path) :
    R.ServeHTTP req = .movedPermanently { req.URL with Path := cleanPath req.URL.Path } := by
  unfold Router.ServeHTTP
  simp [hs, hclean]

theorem serve_handled_clean (R : Router) (req : Request) (h : Handler) (mt : RouteMatch)
    (hs : R.skipClean = false) (hserve : R.ServeHTTP req = .handled h mt) :
    cleanPath req.URL.Path = req.URL.Path := by
  by_contra hc
  rw [serve_unclean R req hs hc] at hserve
  exact absurd hserve (by simp)

/-! ### What `setMatch` stores for the routes of the table -/

theorem setMatch_root (M : String) (h : Handler) (name m : String) (m0 : RouteMatch) :
    setMatch (stdRoute M rrRoot h name) ⟨m, ⟨['/'], q⟩⟩ m0 = m0 := by
  simp only [setMatch, stdRoute, rrRoot_submatch]
  simp [rrRoot, endOK]

theorem setMatch_style (M : String) (h : Handler) (name m : String) (m0 : RouteMatch) :
    setMatch (stdRoute M rrStyle h name) ⟨m, ⟨"/styleguide".data, q⟩⟩ m0 = m0 := by
  simp only [setMatch, stdRoute, rrStyle_submatch]
  simp [rrStyle]

theorem setMatch_style_slash (M : String) (h : Handler) (name m : String) (m0 : RouteMatch) :
    setMatch (stdRoute M rrStyle h name) ⟨m, ⟨"/styleguide/".data, q⟩⟩ m0 =
      { m0 with Handler := some (.redirect ⟨"/styleguide".data, q⟩ 301) } := by
  simp only [setMatch, stdRoute, rrStyle_submatch]
  simp [rrStyle]

theorem getLast?_noslash (s : List Char) (hs : '/' ∉ s) : s.getLast? ≠ some '/' := by
  intro h
  exact hs (List.mem_of_getLast?_eq_some h)

theorem setMatch_token_slash (M : String) (h : Handler) (name m : String) (m0 : RouteMatch)
    (s : List Char) (hne : s ≠ []) (hs : '/' ∉ s) :
    setMatch (stdRoute M rrToken h name) ⟨m, ⟨'/' :: (s ++ ['/']), q⟩⟩ m0 =
      { m0 with Vars := m0.Vars ++ [("token".data, s)] } := by
  have ht := tokenOf_of s ['/'] hne hs (Or.inr rfl)
  have hl : ('/' :: (s ++ ['/'])).getLast? = some '/' := by
    rw [← List.cons_append, List.getLast?_concat]
  simp only [setMatch, stdRoute, rrToken_submatch, ht, Option.map_some']
  simp [rrToken, hl]

theorem setMatch_token (M : String) (h : Handler) (name m : String) (m0 : RouteMatch)
    (s : List Char) (hne : s ≠ []) (hs : '/' ∉ s) :
    setMatch (stdRoute M rrToken h name) ⟨m, ⟨'/' :: s, q⟩⟩ m0 =
      { m0 with Vars := m0.Vars ++ [("token".data, s)],
                Handler := some (.redirect ⟨'/' :: (s ++ ['/']), q⟩ 301) } := by
  have ht := tokenOf_of s [] hne hs (Or.inl rfl)
  rw [List.append_nil] at ht
  have hl : ('/' :: s).getLast? ≠ some '/' := by
    obtain ⟨a, t, rfl⟩ := List.exists_cons_of_ne_nil hne
    rw [List.getLast?_cons_cons]
    exact getLast?_noslash _ hs
  simp only [setMatch, stdRoute, rrToken_submatch, ht, Option.map_some']
  simp [rrToken, hl]

theorem setMatch_static (dir m : String) (p : List Char) (m0 : RouteMatch) :
    setMatch (staticRoute dir) ⟨m, ⟨p, q⟩⟩ m0 = m0 := by
  simp only [setMatch, staticRoute, rrStatic_submatch]
  split <;> simp [rrStatic]

/-! ## Clean paths -/

theorem cleanElem_nil (out : List (List Char)) : cleanElem out [] = out := by
  simp [cleanElem]

theorem cleanLoop_noslash (s t : List Char) (out : List (List Char)) (cur : List Char)
    (hs : '/' ∉ s) : cleanLoop (s ++ t) out cur = cleanLoop t out (cur ++ s) := by
  induction s generalizing cur with
  | nil => simp
  | cons c s ih =>
    have hc : c ≠ '/' := by rintro rfl; exact hs (List.mem_cons_self _ _)
    rw [List.cons_append, cleanLoop, if_neg hc, ih _ (fun h => hs (List.mem_cons_of_mem c h))]
    simp

theorem cleanLoop_append_slash (r : List Char) (out : List (List Char)) (cur : List Char) :
    cleanLoop (r ++ ['/']) out cur = cleanLoop r out cur := by
  induction r generalizing out cur with
  | nil => simp [cleanLoop, cleanElem_nil]
  | cons c r ih =>
    rw [List.cons_append, cleanLoop, cleanLoop]
    split
    · exact ih _ _
    · exact ih _ _

theorem cleanPath_head (p : List Char) (h : cleanPath p = p) : ∃ r, p = '/' :: r := by
  rcases p with _ | ⟨c, r⟩
  · simp [cleanPath] at h
  · by_cases hc : c = '/'
    · exact ⟨r, by rw [hc]⟩
    · exfalso
      have hc2 : ¬ '/' = c := fun e => hc e.symm
      simp only [cleanPath, List.head?_cons, ne_eq, Option.some.injEq, hc, not_false_eq_true,
        if_true, Clean, reduceCtorEq, if_false] at h
      split at h
      · have := congrArg List.head? h
        simp [hc2] at this
      · have := congrArg List.head? h
        simp [hc2] at this

/-- A clean path without trailing slash stays clean when a slash is appended. -/
theorem cleanPath_append_slash (p : List Char) (h : cleanPath p = p)
    (hl : p.getLast? ≠ some '/') : cleanPath (p ++ ['/']) = p ++ ['/'] := by
  obtain ⟨r, rfl⟩ := cleanPath_head p h
  have hC : Clean ('/' :: r) = '/' :: r := by
    simp only [cleanPath, reduceCtorEq, if_false, List.head?_cons, ne_eq, not_true_eq_false, hl,
      false_and] at h
    exact h
  have hC2 : Clean ('/' :: (r ++ ['/'])) = '/' :: r := by
    simp only [Clean, cleanLoop_append_slash] at hC ⊢
    exact hC
  have hr : r ≠ [] := by rintro rfl; simp at hl
  simp only [cleanPath, List.cons_append, reduceCtorEq, if_false, List.head?_cons, ne_eq,
    not_true_eq_false, hC2]
  have hl2 : ('/' :: (r ++ ['/'])).getLast? = some '/' := by
    rw [← List.cons_append, List.getLast?_concat]
  simp [hl2, hr]

/-- The paths `/s` and `/s/` are clean for a component `s` other than `.` and `..`. -/
theorem cleanPath_token (s : List Char) (hne : s ≠ []) (hs : '/' ∉ s) (hd : s ≠ ['.'])
    (hdd : s ≠ ['.', '.']) :
    cleanPath ('/' :: s) = '/' :: s ∧ cleanPath ('/' :: (s ++ ['/'])) = '/' :: (s ++ ['/']) := by
  have h1 : cleanPath ('/' :: s) = '/' :: s := by
    have hl : ('/' :: s).getLast? ≠ some '/' := by
      obtain ⟨a, t, rfl⟩ := List.exists_cons_of_ne_nil hne
      rw [List.getLast?_cons_cons]
      exact fun h => hs (List.mem_of_getLast?_eq_some h)
    have hloop : cleanLoop s [] [] = [s] := by
      have := cleanLoop_noslash s [] [] [] hs
      rw [List.append_nil] at this
      rw [this]
      simp [cleanLoop, cleanElem, hne, hd, hdd]
    simp [cleanPath, Clean, hl, hloop, joinSlash]
  exact ⟨h1, by
    have hl : ('/' :: s).getLast? ≠ some '/' := by
      obtain ⟨a, t, rfl⟩ := List.exists_cons_of_ne_nil hne
      rw [List.getLast?_cons_cons]
      exact fun h => hs (List.mem_of_getLast?_eq_some h)
    exact cleanPath_append_slash _ h1 hl⟩

/-! ## The patterns of the table -/

theorem strict_root : newRouteRegexp "/".data .path true = some rrRoot := by rfl

theorem strict_style : newRouteRegexp "/styleguide".data .path true = some rrStyle := by rfl

theorem strict_token : newRouteRegexp "/{token}/".data .path true = some rrToken := by rfl

theorem matchPieces_exact_end (t : List Char) :
    matchPieces [] false true t = if t = [] then some [] else none := by
  simp [matchPieces]

theorem patternMatches_root (p : List Char) : patternMatches "/" p = decide (p = ['/']) := by
  have hc : newRouteRegexp "/".data .path false =
      some { template := ['/'], regexpType := .path, strictSlash := false,
             pieces := [.lit ['/']], optSlash := false, anchored := true, varsN := [] } := by rfl
  simp only [patternMatches, hc, RouteRegexp.Match, RouteRegexp.submatch, matchPieces]
  rcases p with _ | ⟨c, t⟩
  · simp
  · by_cases h : c = '/'
    · subst h; cases t <;> simp
    · have h2 : ¬ '/' = c := fun e => h e.symm
      simp [h, h2]

theorem patternMatches_style (p : List Char) :
    patternMatches "/styleguide" p = decide (p = "/styleguide".data) := by
  have hc : newRouteRegexp "/styleguide".data .path false =
      some { template := "/styleguide".data, regexpType := .path, strictSlash := false,
             pieces := [.lit "/styleguide".data], optSlash := false, anchored := true,
             varsN := [] } := by rfl
  simp only [patternMatches, hc, RouteRegexp.Match, RouteRegexp.submatch, matchPieces]
  by_cases h : "/styleguide".data.isPrefixOf p
  · obtain ⟨t, rfl⟩ := List.isPrefixOf_iff_prefix.mp h
    rw [if_pos h]
    cases t <;> simp
  · rw [if_neg h]
    have h1 : p ≠ "/styleguide".data := by rintro rfl; exact h (by decide)
    simp [h1]

theorem varSplits_findSome_gen (E : List Char → Bool)
    (hE : ∀ x, E x = true → x = [] ∨ ∃ t, x = '/' :: t) (q : List Char) :
    (varSplits q).findSome? (fun tr => if E tr.2 then some tr.1 else none) =
      if q.takeWhile notSlash ≠ [] ∧ E (q.dropWhile notSlash) then some (q.takeWhile notSlash)
      else none := by
  induction q with
  | nil => simp [varSplits]
  | cons c cs ih =>
    by_cases hc : c = '/'
    · subst hc; simp [varSplits, notSlash]
    · have hn : notSlash c = true := by simp [notSlash, hc]
      simp only [varSplits, hc, if_false, List.findSome?_append, List.findSome?_map]
      have : ((fun tr : List Char × List Char => if E tr.2 then some tr.1 else none) ∘
            (fun tr : List Char × List Char => (c :: tr.1, tr.2))) =
          fun tr => (if E tr.2 then some tr.1 else none).map (fun v => c :: v) := by
        funext tr
        simp only [Function.comp]
        split <;> simp
      rw [this, findSome_map_option, ih]
      have hsplit := List.takeWhile_append_dropWhile notSlash cs
      have hmem : ∀ x ∈ List.takeWhile notSlash cs, notSlash x = true :=
        fun x hx => List.mem_takeWhile_imp hx
      simp only [List.takeWhile_cons, List.dropWhile_cons, hn, if_true, List.findSome?]
      generalize List.takeWhile notSlash cs = tw at hsplit hmem ⊢
      generalize List.dropWhile notSlash cs = dw at hsplit ⊢
      rcases tw with _ | ⟨a, tw⟩
      · simp at hsplit; subst hsplit
        by_cases h : E dw = true <;> simp [h]
      · by_cases h : E dw = true
        · simp [h]
        · have hcs : E cs = false := by
            cases hEc : E cs
            · rfl
            · exfalso
              have ha := hmem a (List.mem_cons_self a tw)
              rcases hE cs hEc with h0 | ⟨t, ht⟩
              · rw [h0] at hsplit; simp at hsplit
              · rw [ht] at hsplit
                have := (List.cons.inj hsplit).1
                rw [this] at ha
                simp [notSlash] at ha
          simp [h, hcs]

theorem patternMatches_token (p : List Char) :
    patternMatches "/{token}/" p = true ↔
      ∃ s, s ≠ [] ∧ '/' ∉ s ∧ p = '/' :: (s ++ ['/']) := by
  have hc : newRouteRegexp "/{token}/".data .path false =
      some { template := "/{token}/".data, regexpType := .path, strictSlash := false,
             pieces := [.lit ['/'], .var "token".data, .lit ['/']], optSlash := false,
             anchored := true, varsN := ["token".data] } := by rfl
  have hf : (fun tr : List Char × List Char =>
        (matchPieces [.lit ['/']] false true tr.2).map (fun vs => tr.1 :: vs)) =
      fun tr => (if decide (tr.2 = ['/']) then some tr.1 else none).map (fun s => [s]) := by
    funext tr
    rw [matchPieces, matchPieces_exact_end]
    rcases tr.2 with _ | ⟨c, t⟩
    · simp
    · by_cases h : c = '/'
      · subst h; cases t <;> simp
      · have h2 : ¬ '/' = c := fun e => h e.symm
        simp [h, h2]
  have hv : ∀ q, matchPieces [.var "token".data, .lit ['/']] false true q =
      (if q.takeWhile notSlash ≠ [] ∧ decide (q.dropWhile notSlash = ['/']) then
        some (q.takeWhile notSlash) else none).map (fun s => [s]) := by
    intro q
    rw [matchPieces, hf, findSome_map_option,
      varSplits_findSome_gen (fun x => decide (x = ['/']))
        (fun x hx => Or.inr ⟨[], by simpa using hx⟩)]
  simp only [patternMatches, hc, RouteRegexp.Match, RouteRegexp.submatch]
  rw [matchPieces]
  constructor
  · intro h
    rcases p with _ | ⟨c, q⟩
    · simp at h
    · by_cases hcs : c = '/'
      · subst hcs
        simp only [List.isPrefixOf, beq_self_eq_true, Bool.true_and, if_true, List.length_singleton,
          List.drop_succ_cons, List.drop_zero, hv] at h
        split at h
        · rename_i hcond
          have hsplit := List.takeWhile_append_dropWhile notSlash q
          refine ⟨q.takeWhile notSlash, hcond.1, ?_, ?_⟩
          · intro hmem
            have := List.mem_takeWhile_imp hmem
            simp [notSlash] at this
          · have hd : q.dropWhile notSlash = ['/'] := by simpa using hcond.2
            rw [hd] at hsplit
            rw [hsplit]
        · simp at h
      · have h2 : ¬ '/' = c := fun e => hcs e.symm
        simp [List.isPrefixOf, h2] at h
  · rintro ⟨s, hne, hs, rfl⟩
    obtain ⟨h1, h2⟩ := takeWhile_notSlash s ['/'] hs (Or.inr rfl)
    simp only [List.isPrefixOf, beq_self_eq_true, Bool.true_and, if_true, List.length_singleton,
      List.drop_succ_cons, List.drop_zero, hv, h1, h2]
    simp [hne]

/-- Serving a clean path with the router of `NewRouter` when the route after `pre`
is the first that matches. -/
theorem serve_route (rel : Release) (dir m : String) (p : List Char) (pre : List MuxRoute)
    (r : MuxRoute) (post : List MuxRoute) (hd h2 : Handler)
    (hsplit : (NewRouter rel dir).routes = pre ++ r :: post)
    (hclean : cleanPath p = p)
    (hpre : ∀ x ∈ pre, fullMatch x ⟨m, ⟨p, q⟩⟩ = false) (hr : fullMatch r ⟨m, ⟨p, q⟩⟩ = true)
    (hh : r.handler = some hd)
    (hH : (setMatch r ⟨m, ⟨p, q⟩⟩
      { Route := some pre.length, Handler := some hd, Vars := [], MatchErr := none }).Handler =
        some h2) :
    (NewRouter rel dir).ServeHTTP ⟨m, ⟨p, q⟩⟩ =
      .handled h2 (setMatch r ⟨m, ⟨p, q⟩⟩
        { Route := some pre.length, Handler := some hd, Vars := [], MatchErr := none }) := by
  apply serve_of_match _ _ _ _ hclean _ hH
  rw [hsplit]
  have hrel : (NewRouter rel dir).release = rel := by rw [NewRouter_eq]
  rw [hrel, matchRoutes_first rel ⟨m, ⟨p, q⟩⟩ pre r post 0 false hd hpre hr hh]
  simp

theorem token_path_facts (s : List Char) (hne : s ≠ []) :
    endOK ('/' :: (s ++ ['/'])) = false ∧ endOK ('/' :: s) = false ∧
      '/' :: (s ++ ['/']) ≠ "/styleguide".data := by
  obtain ⟨a, t, rfl⟩ := List.exists_cons_of_ne_nil hne
  refine ⟨by simp [endOK], by simp [endOK], ?_⟩
  intro h
  have h2 := congrArg List.getLast? h
  rw [← List.cons_append, List.getLast?_concat] at h2
  exact absurd h2 (by decide)

/-! ## The route a request is served by -/

theorem Match_Route_of_success (rel : Release) (x : MuxRoute) (i : Nat) (req : Request)
    (b : Bool) (hx : fullMatch x req = true) :
    ∃ m1, x.Match rel i req (pending b) = (true, m1) ∧ m1.Route = some i := by
  have hfst := Match_fst rel x i req (pending b)
  rw [hx] at hfst
  rcases hm : x.Match rel i req (pending b) with ⟨ok, m1⟩
  rw [hm] at hfst
  simp only at hfst
  subst hfst
  refine ⟨m1, rfl, ?_⟩
  have : m1 = (x.Match rel i req (pending b)).2 := by rw [hm]
  rw [this]
  unfold MuxRoute.Match
  by_cases he : x.err = true
  · simp [fullMatch, he] at hx
  · simp only [he, if_false, Bool.false_eq_true]
    obtain ⟨b2, hb2, -⟩ := runMatchers_snd rel req x.matchers false b
    have hf := (runMatchers_fst rel req x.matchers false (pending b)).mpr
      ⟨rfl, by simpa [fullMatch, he] using hx⟩
    rcases hr : runMatchers rel x.matchers req false (pending b) with ⟨o, m2⟩
    rw [hr] at hb2 hf
    simp only at hb2 hf
    subst hb2 hf
    simp only [setMatch_Route]
    cases b2 <;> by_cases hh : x.handler.isSome = true <;> simp [pending, hh]

theorem matchRoutes_Route_eq (rel : Release) (req : Request) (rs : List MuxRoute) (i : Nat)
    (b : Bool) : (matchRoutes rel rs i req (pending b)).2.Route = firstMatch rs req i := by
  induction rs generalizing i b with
  | nil => rfl
  | cons x rs ih =>
    cases hx : fullMatch x req
    · obtain ⟨b1, h1, -⟩ := Match_snd_of_fail rel x i req b hx
      simp only [matchRoutes, h1, firstMatch, hx, Bool.false_eq_true, if_false]
      exact ih (i + 1) b1
    · obtain ⟨m1, h1, h2⟩ := Match_Route_of_success rel x i req b hx
      simp only [matchRoutes, h1, firstMatch, hx, if_true, h2]

/-- A clean path is always handed to a handler, and the match record names the first
route that matches, if any. -/
theorem serve_Route (R : Router) (req : Request) (hclean : cleanPath req.URL.Path = req.URL.Path) :
    ∃ h mt, R.ServeHTTP req = .handled h mt ∧ mt.Route = firstMatch R.routes req 0 := by
  have hroute := matchRoutes_Route_eq R.release req R.routes 0 false
  unfold Router.ServeHTTP Router.Match
  rw [pending_false]
  rcases hm : matchRoutes R.release R.routes 0 req (pending false) with ⟨ok, m1⟩
  rw [hm] at hroute
  simp only at hroute
  rw [← hroute]
  cases ok <;> cases hM : R.MethodNotAllowedHandler <;> cases hN : R.NotFoundHandler <;>
    cases hH : m1.Handler <;> by_cases he : m1.MatchErr = some .ErrMethodMismatch <;>
    cases hF : R.release.notFoundFirst <;> cases hMM : R.release.recordsNotFound <;>
    simp [hclean, hH, he, hF, hMM] <;>
    exact ⟨_, _, ⟨rfl, rfl⟩, rfl⟩

theorem firstMatch_append_none (pre post : List MuxRoute) (req : Request) (i : Nat)
    (h : firstMatch pre req i = none) :
    firstMatch (pre ++ post) req i = firstMatch post req (i + pre.length) := by
  induction pre generalizing i with
  | nil => rfl
  | cons x pre ih =>
    simp only [firstMatch] at h
    split at h
    · simp at h
    · rename_i hx
      show firstMatch (x :: (pre ++ post)) req i = _
      rw [firstMatch, if_neg hx, ih (i + 1) h]
      simp only [List.length_cons]
      congr 1
      omega

theorem firstMatch_append_some (pre post : List MuxRoute) (req : Request) (i k : Nat)
    (h : firstMatch pre req i = some k) :
    firstMatch (pre ++ post) req i = some k := by
  induction pre generalizing i with
  | nil => simp [firstMatch] at h
  | cons x pre ih =>
    simp only [firstMatch] at h
    show firstMatch (x :: (pre ++ post)) req i = _
    rw [firstMatch]
    split at h
    · rename_i hx; rw [if_pos hx]; exact h
    · rename_i hx; rw [if_neg hx]; exact ih (i + 1) h

theorem firstMatch_bounds (rs : List MuxRoute) (req : Request) (i k : Nat)
    (h : firstMatch rs req i = some k) :
    i ≤ k ∧ k < i + rs.length ∧ (∃ r, rs[k - i]? = some r ∧ fullMatch r req = true) ∧
      ∀ j, j < k - i → ∀ x, rs[j]? = some x → fullMatch x req = false := by
  induction rs generalizing i with
  | nil => simp [firstMatch] at h
  | cons x rs ih =>
    simp only [firstMatch] at h
    split at h
    · rename_i hx
      have hik : i = k := Option.some.inj h
      subst hik
      refine ⟨le_refl _, by simp, ⟨x, by simp, hx⟩, fun j hj => by omega⟩
    · rename_i hx
      obtain ⟨h1, h2, ⟨r, hr, hrm⟩, h4⟩ := ih (i + 1) h
      have e : k - i = (k - (i + 1)) + 1 := by omega
      refine ⟨by omega, by simp only [List.length_cons]; omega,
        ⟨r, by rw [e]; simpa using hr, hrm⟩, fun j hj y hy => ?_⟩
      rcases j with _ | j
      · simp at hy; subst hy; simpa using hx
      · simp at hy
        exact h4 j (by omega) y hy

/-! ## Serving the requests of each kind -/

theorem patternMatchesStrict_root (p : List Char) :
    patternMatchesStrict "/" p = rrRoot.Match p := by
  unfold patternMatchesStrict
  rw [strict_root]

theorem patternMatchesStrict_style (p : List Char) :
    patternMatchesStrict "/styleguide" p = rrStyle.Match p := by
  unfold patternMatchesStrict
  rw [strict_style]

theorem patternMatchesStrict_token (p : List Char) :
    patternMatchesStrict "/{token}/" p = rrToken.Match p := by
  unfold patternMatchesStrict
  rw [strict_token]

/-- Serving a clean path that no route matches: the answer 405 or the not-found
handler, and no route in the match record. -/
theorem serve_none (rel : Release) (dir m : String) (p : List Char) (hclean : cleanPath p = p)
    (hall : ∀ x ∈ (NewRouter rel dir).routes, fullMatch x ⟨m, ⟨p, q⟩⟩ = false) :
    ∃ b2, (NewRouter rel dir).ServeHTTP ⟨m, ⟨p, q⟩⟩ =
        (if b2 = true ∧ rel.notFoundFirst = false then
          .handled .methodNotAllowed (pending true)
        else .handled (.logger .notFoundFunc "404")
          { Route := none, Handler := some (.logger .notFoundFunc "404"), Vars := [],
            MatchErr := if rel.recordsNotFound then some .ErrNotFound
              else (pending b2).MatchErr }) ∧
      (b2 = true → ∃ x ∈ (NewRouter rel dir).routes, pathMatch x ⟨m, ⟨p, q⟩⟩ = true) := by
  obtain ⟨b2, h2, himp⟩ := matchRoutes_none rel ⟨m, ⟨p, q⟩⟩ (NewRouter rel dir).routes 0 false hall
  refine ⟨b2, ?_, fun hb => ?_⟩
  · have hrel : (NewRouter rel dir).release = rel := by rw [NewRouter_eq]
    have := serve_of_nomatch (NewRouter rel dir) ⟨m, ⟨p, q⟩⟩ b2 (.logger .notFoundFunc "404") hclean
      (by rw [hrel]; exact h2) (by rw [NewRouter_eq]) (by rw [NewRouter_eq])
    rw [this, hrel]
  · rcases himp hb with h | ⟨x, hx, hp, -⟩
    · exact absurd h (by simp)
    · exact ⟨x, hx, hp⟩

theorem static_path_facts (p : List Char) (h : "/static/".data.isPrefixOf p = true) :
    endOK p = false ∧ p ≠ "/styleguide".data ∧ p ≠ "/styleguide/".data := by
  obtain ⟨t, rfl⟩ := List.isPrefixOf_iff_prefix.mp h
  refine ⟨by simp [endOK], ?_, ?_⟩ <;> simp

theorem rrToken_static (rest : List Char) :
    rrToken.Match ("/static/".data ++ rest) = decide (rest = []) := by
  have e : "/static/".data ++ rest = '/' :: ("static".data ++ '/' :: rest) := rfl
  rw [e, rrToken_Match_cons]
  have h := takeWhile_notSlash "static".data [] (by decide) (Or.inl rfl)
  have htw : List.takeWhile notSlash ("static".data ++ '/' :: rest) = "static".data := by
    simp [List.takeWhile, notSlash]
  have hdw : List.dropWhile notSlash ("static".data ++ '/' :: rest) = '/' :: rest := by
    simp [List.dropWhile, notSlash]
  unfold tokenOf
  rw [htw, hdw]
  by_cases hr : rest = []
  · subst hr; simp [endOK]
  · simp [endOK, hr]

/-- Serving a clean path under `/static/` that no declared route matches. -/
theorem serve_static (rel : Release) (dir m : String) (rest : List Char)
    (hclean : cleanPath ("/static/".data ++ rest) = "/static/".data ++ rest)
    (hne : rest ≠ [] ∨ (m ≠ "GET" ∧ m ≠ "DELETE")) :
    (NewRouter rel dir).ServeHTTP ⟨m, ⟨"/static/".data ++ rest, q⟩⟩ =
      .handled (.stripPrefix staticDirPathPrefix (.fileServer dir))
        { Route := some 5,
          Handler := some (.stripPrefix staticDirPathPrefix (.fileServer dir)),
          Vars := [], MatchErr := none } := by
  have hpre : "/static/".data.isPrefixOf ("/static/".data ++ rest) = true :=
    List.isPrefixOf_iff_prefix.mpr ⟨rest, rfl⟩
  obtain ⟨hf1, hf2, hf3⟩ := static_path_facts _ hpre
  have htok := rrToken_static rest
  have := serve_route (q := q) rel dir m ("/static/".data ++ rest) [_, _, _, _, _] (staticRoute dir) []
    (.stripPrefix staticDirPathPrefix (.fileServer dir))
    (.stripPrefix staticDirPathPrefix (.fileServer dir))
    (by rw [NewRouter_eq]; rfl) hclean
    (by
      rcases hne with hr | ⟨hg, hd⟩
      · simp_all [fullMatch_stdRoute, rrRoot_Match, rrStyle_Match]
      · simp_all [fullMatch_stdRoute, rrRoot_Match, rrStyle_Match])
    (by rw [fullMatch_staticRoute, rrStatic_Match]; exact hpre) rfl
    (by rw [setMatch_static])
  rw [this, setMatch_static]; rfl

theorem serve_index (rel : Release) (dir : String) :
    (NewRouter rel dir).ServeHTTP ⟨"GET", ⟨['/'], q⟩⟩ =
      .handled (.logger (.func "IndexAction") "Index")
        { Route := some 0, Handler := some (.logger (.func "IndexAction") "Index"), Vars := [],
          MatchErr := none } := by
  have := serve_route (q := q) rel dir "GET" ['/'] [] _ _ _ _ (by rw [NewRouter_eq]; rfl) (by decide)
    (by simp) (by simp [fullMatch_stdRoute, rrRoot_Match, endOK]) rfl
    (by rw [setMatch_root])
  rw [this, setMatch_root]; rfl

theorem serve_new (rel : Release) (dir : String) :
    (NewRouter rel dir).ServeHTTP ⟨"POST", ⟨['/'], q⟩⟩ =
      .handled (.logger (.func "NewMessageAction") "NewMessage")
        { Route := some 2, Handler := some (.logger (.func "NewMessageAction") "NewMessage"),
          Vars := [], MatchErr := none } := by
  have := serve_route (q := q) rel dir "POST" ['/'] [_, _] _ _ _ _ (by rw [NewRouter_eq]; rfl)
    (by decide) (by simp [fullMatch_stdRoute])
    (by simp [fullMatch_stdRoute, rrRoot_Match, endOK]) rfl
    (by rw [setMatch_root])
  rw [this, setMatch_root]; rfl

theorem serve_style (rel : Release) (dir : String) :
    (NewRouter rel dir).ServeHTTP ⟨"GET", ⟨"/styleguide".data, q⟩⟩ =
      .handled (.logger (.func "StyleguideAction") "Styleguide")
        { Route := some 1, Handler := some (.logger (.func "StyleguideAction") "Styleguide"),
          Vars := [], MatchErr := none } := by
  have := serve_route (q := q) rel dir "GET" "/styleguide".data [_] _ _ _ _ (by rw [NewRouter_eq]; rfl)
    (by decide) (by simp [fullMatch_stdRoute, rrRoot_Match, endOK])
    (by simp [fullMatch_stdRoute, rrStyle_Match]) rfl
    (by rw [setMatch_style])
  rw [this, setMatch_style]; rfl

theorem serve_style_slash (rel : Release) (dir : String) :
    (NewRouter rel dir).ServeHTTP ⟨"GET", ⟨"/styleguide/".data, q⟩⟩ =
      .handled (.redirect ⟨"/styleguide".data, q⟩ 301)
        { Route := some 1, Handler := some (.redirect ⟨"/styleguide".data, q⟩ 301),
          Vars := [], MatchErr := none } := by
  have := serve_route (q := q) rel dir "GET" "/styleguide/".data [_] _ _ _ _
    (by rw [NewRouter_eq]; rfl) (by decide) (by simp [fullMatch_stdRoute, rrRoot_Match, endOK])
    (by simp [fullMatch_stdRoute, rrStyle_Match]) rfl
    (by rw [setMatch_style_slash])
  rw [this, setMatch_style_slash]; rfl

theorem token_noslash_facts (s : List Char) (hne : s ≠ []) (hs : '/' ∉ s) :
    '/' :: s ≠ "/styleguide/".data ∧ '/' :: (s ++ ['/']) ≠ "/styleguide".data ∧
      ('/' :: s = "/styleguide".data ↔ s = "styleguide".data) ∧
      ('/' :: (s ++ ['/']) = "/styleguide/".data ↔ s = "styleguide".data) := by
  refine ⟨?_, (token_path_facts s hne).2.2, by simp, ?_⟩
  · intro h
    have h2 : s = "styleguide/".data := by simpa using h
    rw [h2] at hs
    exact hs (by decide)
  · constructor
    · intro h
      have h2 : s ++ ['/'] = "styleguide".data ++ ['/'] := by simpa using h
      exact List.append_cancel_right h2
    · rintro rfl; rfl

/-- Serving `GET /s/` for a component `s` other than `styleguide`. -/
theorem serve_show (rel : Release) (dir : String) (s : List Char) (hne : s ≠ []) (hs : '/' ∉ s)
    (hclean : cleanPath ('/' :: (s ++ ['/'])) = '/' :: (s ++ ['/']))
    (hsg : s ≠ "styleguide".data) :
    (NewRouter rel dir).ServeHTTP ⟨"GET", ⟨'/' :: (s ++ ['/']), q⟩⟩ =
      .handled (.logger (.func "ShowAction") "ShowMessage")
        { Route := some 3, Handler := some (.logger (.func "ShowAction") "ShowMessage"),
          Vars := [("token".data, s)], MatchErr := none } := by
  obtain ⟨hf1, -, -⟩ := token_path_facts s hne
  obtain ⟨-, hg2, -, hg4⟩ := token_noslash_facts s hne hs
  have := serve_route (q := q) rel dir "GET" ('/' :: (s ++ ['/'])) [_, _, _] _ _ _ _
    (by rw [NewRouter_eq]; rfl) hclean
    (by simp [fullMatch_stdRoute, rrRoot_Match, rrStyle_Match, hf1, hg2, hg4, hsg])
    (by simp [fullMatch_stdRoute, rrToken_Match_cons, tokenOf_of s ['/'] hne hs (Or.inr rfl)])
    rfl
    (by rw [setMatch_token_slash _ _ _ _ _ s hne hs])
  rw [this, setMatch_token_slash _ _ _ _ _ s hne hs]; rfl

/-- Serving `GET /s` for a component `s` other than `styleguide`. -/
theorem serve_show_redirect (rel : Release) (dir : String) (s : List Char) (hne : s ≠ [])
    (hs : '/' ∉ s) (hclean : cleanPath ('/' :: s) = '/' :: s) (hsg : s ≠ "styleguide".data) :
    (NewRouter rel dir).ServeHTTP ⟨"GET", ⟨'/' :: s, q⟩⟩ =
      .handled (.redirect ⟨'/' :: (s ++ ['/']), q⟩ 301)
        { Route := some 3, Handler := some (.redirect ⟨'/' :: (s ++ ['/']), q⟩ 301),
          Vars := [("token".data, s)], MatchErr := none } := by
  obtain ⟨-, hf2, -⟩ := token_path_facts s hne
  obtain ⟨hg1, -, hg3, -⟩ := token_noslash_facts s hne hs
  have ht := tokenOf_of s [] hne hs (Or.inl rfl)
  rw [List.append_nil] at ht
  have := serve_route (q := q) rel dir "GET" ('/' :: s) [_, _, _] _ _ _ _
    (by rw [NewRouter_eq]; rfl) hclean
    (by simp [fullMatch_stdRoute, rrRoot_Match, rrStyle_Match, hf2, hg1, hg3, hsg])
    (by simp [fullMatch_stdRoute, rrToken_Match_cons, ht])
    rfl
    (by rw [setMatch_token _ _ _ _ _ s hne hs])
  rw [this, setMatch_token _ _ _ _ _ s hne hs]; rfl

/-- Serving `DELETE /s/`. -/
theorem serve_delete (rel : Release) (dir : String) (s : List Char) (hne : s ≠ [])
    (hs : '/' ∉ s) (hclean : cleanPath ('/' :: (s ++ ['/'])) = '/' :: (s ++ ['/'])) :
    (NewRouter rel dir).ServeHTTP ⟨"DELETE", ⟨'/' :: (s ++ ['/']), q⟩⟩ =
      .handled (.logger (.func "DeleteMessageAction") "DeleteMessage")
        { Route := some 4,
          Handler := some (.logger (.func "DeleteMessageAction") "DeleteMessage"),
          Vars := [("token".data, s)], MatchErr := none } := by
  have := serve_route (q := q) rel dir "DELETE" ('/' :: (s ++ ['/'])) [_, _, _, _] _ _ _ _
    (by rw [NewRouter_eq]; rfl) hclean
    (by simp [fullMatch_stdRoute])
    (by simp [fullMatch_stdRoute, rrToken_Match_cons, tokenOf_of s ['/'] hne hs (Or.inr rfl)])
    rfl
    (by rw [setMatch_token_slash _ _ _ _ _ s hne hs])
  rw [this, setMatch_token_slash _ _ _ _ _ s hne hs]; rfl

/-- Serving `DELETE /s`. -/
theorem serve_delete_redirect (rel : Release) (dir : String) (s : List Char) (hne : s ≠ [])
    (hs : '/' ∉ s) (hclean : cleanPath ('/' :: s) = '/' :: s) :
    (NewRouter rel dir).ServeHTTP ⟨"DELETE", ⟨'/' :: s, q⟩⟩ =
      .handled (.redirect ⟨'/' :: (s ++ ['/']), q⟩ 301)
        { Route := some 4, Handler := some (.redirect ⟨'/' :: (s ++ ['/']), q⟩ 301),
          Vars := [("token".data, s)], MatchErr := none } := by
  have ht := tokenOf_of s [] hne hs (Or.inl rfl)
  rw [List.append_nil] at ht
  have := serve_route (q := q) rel dir "DELETE" ('/' :: s) [_, _, _, _] _ _ _ _
    (by rw [NewRouter_eq]; rfl) hclean
    (by simp [fullMatch_stdRoute])
    (by simp [fullMatch_stdRoute, rrToken_Match_cons, ht])
    rfl
    (by rw [setMatch_token _ _ _ _ _ s hne hs])
  rw [this, setMatch_token _ _ _ _ _ s hne hs]; rfl

/-! ## Trailing slashes -/

theorem tokenOf_append_slash (q : List Char) (hl : q.getLast? ≠ some '/') :
    (tokenOf (q ++ ['/'])).isSome = (tokenOf q).isSome := by
  rcases hq : tokenOf q with _ | s
  · rcases hq2 : tokenOf (q ++ ['/']) with _ | s2
    · rfl
    · exfalso
      obtain ⟨hne, hs, h | h⟩ := tokenOf_eq_some _ _ hq2
      · apply hs
        rw [← h]
        simp
      · have hqs : q = s2 := List.append_cancel_right h
        have := tokenOf_of s2 [] hne hs (Or.inl rfl)
        rw [List.append_nil, ← hqs, hq] at this
        exact absurd this (by simp)
  · obtain ⟨hne, hs, h | h⟩ := tokenOf_eq_some _ _ hq
    · subst h
      rw [tokenOf_of q ['/'] hne hs (Or.inr rfl)]
    · exfalso
      apply hl
      rw [h, List.getLast?_concat]

theorem rrToken_Match_iff (p : List Char) :
    rrToken.Match p = true ↔
      ∃ s, s ≠ [] ∧ '/' ∉ s ∧ (p = '/' :: s ∨ p = '/' :: (s ++ ['/'])) := by
  constructor
  · intro h
    rcases p with _ | ⟨c, q⟩
    · rw [RouteRegexp.Match, rrToken_submatch] at h; simp at h
    · by_cases hc : c = '/'
      · subst hc
        rw [rrToken_Match_cons] at h
        obtain ⟨s, hs⟩ := Option.isSome_iff_exists.mp h
        obtain ⟨hne, hns, hq⟩ := tokenOf_eq_some _ _ hs
        exact ⟨s, hne, hns, by rcases hq with rfl | rfl <;> simp⟩
      · exfalso
        have hc2 : ¬ '/' = c := fun e => hc e.symm
        rw [RouteRegexp.Match, rrToken_submatch] at h
        split at h
        · rename_i q2 heq
          exact hc (List.cons.inj heq).1
        · simp at h
  · rintro ⟨s, hne, hs, rfl | rfl⟩
    · have := tokenOf_of s [] hne hs (Or.inl rfl)
      rw [List.append_nil] at this
      rw [rrToken_Match_cons, this]; rfl
    · rw [rrToken_Match_cons, tokenOf_of s ['/'] hne hs (Or.inr rfl)]; rfl

theorem firstMatch_congr (rs : List MuxRoute) (req req2 : Request) (i : Nat)
    (h : ∀ x ∈ rs, fullMatch x req = fullMatch x req2) :
    firstMatch rs req i = firstMatch rs req2 i := by
  induction rs generalizing i with
  | nil => rfl
  | cons x rs ih =>
    simp only [firstMatch, h x (List.mem_cons_self x rs)]
    rw [ih (i + 1) (fun y hy => h y (List.mem_cons_of_mem x hy))]

/-- The routes that `NewRouter` registers for the declared table. -/
theorem NewRouter_routes (rel : Release) (dir : String) :
    (NewRouter rel dir).routes =
      [ stdRoute "GET" rrRoot (.logger (.func "IndexAction") "Index") "Index",
        stdRoute "GET" rrStyle (.logger (.func "StyleguideAction") "Styleguide") "Styleguide",
        stdRoute "POST" rrRoot (.logger (.func "NewMessageAction") "NewMessage") "NewMessage",
        stdRoute "GET" rrToken (.logger (.func "ShowAction") "ShowMessage") "ShowMessage",
        stdRoute "DELETE" rrToken (.logger (.func "DeleteMessageAction") "DeleteMessage")
          "DeleteMessage" ] ++ [staticRoute dir] := by
  rw [NewRouter_eq]; rfl

/-- The declared route of the answer to a clean path: the first route of the table
that matches. -/
theorem declaredRoute_serve (rel : Release) (dir m : String) (p : List Char)
    (hclean : cleanPath p = p) :
    declaredRoute ((NewRouter rel dir).ServeHTTP ⟨m, ⟨p, q⟩⟩) =
      firstMatch
        [ stdRoute "GET" rrRoot (.logger (.func "IndexAction") "Index") "Index",
          stdRoute "GET" rrStyle (.logger (.func "StyleguideAction") "Styleguide") "Styleguide",
          stdRoute "POST" rrRoot (.logger (.func "NewMessageAction") "NewMessage") "NewMessage",
          stdRoute "GET" rrToken (.logger (.func "ShowAction") "ShowMessage") "ShowMessage",
          stdRoute "DELETE" rrToken (.logger (.func "DeleteMessageAction") "DeleteMessage")
            "DeleteMessage" ] ⟨m, ⟨p, q⟩⟩ 0 := by
  obtain ⟨h, mt, hserve, hroute⟩ := serve_Route (NewRouter rel dir) ⟨m, ⟨p, q⟩⟩ hclean
  rw [hserve, declaredRoute, hroute, NewRouter_routes]
  generalize hd : [ stdRoute "GET" rrRoot (.logger (.func "IndexAction") "Index") "Index",
          stdRoute "GET" rrStyle (.logger (.func "StyleguideAction") "Styleguide") "Styleguide",
          stdRoute "POST" rrRoot (.logger (.func "NewMessageAction") "NewMessage") "NewMessage",
          stdRoute "GET" rrToken (.logger (.func "ShowAction") "ShowMessage") "ShowMessage",
          stdRoute "DELETE" rrToken (.logger (.func "DeleteMessageAction") "DeleteMessage")
            "DeleteMessage" ] = d5
  have hlen : d5.length = 5 := by rw [← hd]; rfl
  rcases hf : firstMatch d5 ⟨m, ⟨p, q⟩⟩ 0 with _ | k
  · rw [firstMatch_append_none _ _ _ _ hf, hlen]
    simp only [firstMatch]
    split <;> simp [routes]
  · rw [firstMatch_append_some _ _ _ _ _ hf]
    have := (firstMatch_bounds _ _ _ _ hf).2.1
    simp [routes]
    omega

/-! ## The cases of an answer, and routers over any table -/

/-- An answer of the router of `NewRouter` comes from the first route that matches, or
from no route. -/
theorem serve_cases (rel : Release) (dir : String) (req : Request) (h : Handler)
    (mt : RouteMatch) (hserve : (NewRouter rel dir).ServeHTTP req = .handled h mt) :
    (∃ k r hd, (NewRouter rel dir).routes[k]? = some r ∧ r.handler = some hd ∧
        fullMatch r req = true ∧
        mt = setMatch r req { Route := some k, Handler := some hd, Vars := [], MatchErr := none } ∧
        mt.Handler = some h) ∨
      (mt.Route = none ∧ (h = .methodNotAllowed ∨ h = .logger .notFoundFunc "404")) := by
  have hclean := serve_handled_clean (NewRouter rel dir) req h mt (by rw [NewRouter_eq]) hserve
  have hrel : (NewRouter rel dir).release = rel := by rw [NewRouter_eq]
  rcases matchRoutes_cases rel req (NewRouter rel dir).routes 0 false
      (NewRouter_routes_handler rel dir) with
    ⟨pre, r, post, hd, hsplit, -, hr, hhd, hres⟩ | ⟨-, b2, hres, -⟩
  · left
    rw [Nat.zero_add] at hres
    have hH : ∃ h2, (setMatch r req
        { Route := some pre.length, Handler := some hd, Vars := [], MatchErr := none }).Handler =
          some h2 := by
      rcases setMatch_Handler r req
        { Route := some pre.length, Handler := some hd, Vars := [], MatchErr := none } with
        h1 | ⟨u, h1⟩
      · exact ⟨hd, h1⟩
      · exact ⟨_, h1⟩
    obtain ⟨h2, hh2⟩ := hH
    have := serve_of_match (NewRouter rel dir) req _ h2 hclean (by rw [hrel]; exact hres) hh2
    rw [this] at hserve
    injection hserve with e1 e2
    subst e1
    refine ⟨pre.length, r, hd, ?_, hhd, hr, e2.symm, by rw [← e2]; exact hh2⟩
    rw [hsplit, List.getElem?_append_right (le_refl _)]
    simp
  · right
    have := serve_of_nomatch (NewRouter rel dir) req b2 (.logger .notFoundFunc "404") hclean
      (by rw [hrel]; exact hres) (by rw [NewRouter_eq]) (by rw [NewRouter_eq])
    rw [this] at hserve
    split at hserve
    · injection hserve with e1 e2
      exact ⟨by rw [← e2]; rfl, Or.inl e1.symm⟩
    · injection hserve with e1 e2
      exact ⟨by rw [← e2], Or.inr e1.symm⟩

theorem registerRoute_eq (router : Router) (route : Route) :
    registerRoute router route =
      { router with routes := router.routes ++ [routeFor router.strictSlash route] } := rfl

theorem foldl_registerRoute (table : Routes) (router : Router) :
    table.foldl registerRoute router =
      { router with routes := router.routes ++ table.map (routeFor router.strictSlash) } := by
  induction table generalizing router with
  | nil => simp
  | cons t table ih =>
    rw [List.foldl_cons, ih, registerRoute_eq]
    simp

/-- The routes of the router built over a table: one per route of the table, in order,
then the static route. -/
theorem NewRouterOver_routes (table : Routes) (rel : Release) (dir : String) :
    (NewRouterOver table rel dir).routes = table.map (routeFor true) ++ [staticRoute dir] := by
  unfold NewRouterOver
  simp only [foldl_registerRoute]
  rfl

theorem NewRouterOver_skipClean (table : Routes) (rel : Release) (dir : String) :
    (NewRouterOver table rel dir).skipClean = false := by
  unfold NewRouterOver
  simp only [foldl_registerRoute]
  rfl

theorem addRegexpMatcher_name (r : MuxRoute) (tpl : List Char) (typ : RegexpType) :
    (r.addRegexpMatcher tpl typ).name = r.name := by
  unfold MuxRoute.addRegexpMatcher
  split
  · rfl
  · split
    · rfl
    · simp only
      split <;> rfl

theorem Name_Handler_matchers (base : MuxRoute) (n : String) (h : Handler)
    (hn : base.name = "") :
    ((base.Name n).Handler h).matchers = base.matchers ∧
      ((base.Name n).Handler h).err = base.err := by
  unfold MuxRoute.Handler MuxRoute.Name
  cases he : base.err <;> simp [hn, he]

/-- Two routes of a table with the same method and pattern are registered with the same
matchers: they match the same requests. -/
theorem routeFor_fullMatch (strict : Bool) (a b : Route) (hm : a.Method = b.Method)
    (hp : a.Pattern = b.Pattern) (req : Request) :
    fullMatch (routeFor strict a) req = fullMatch (routeFor strict b) req := by
  have hname : ∀ r : Route,
      (((MuxRoute.mk none [] none "" false strict).Methods [r.Method]).Path r.Pattern).name =
        "" := by
    intro r
    unfold MuxRoute.Path
    rw [addRegexpMatcher_name]
    rfl
  obtain ⟨ha1, ha2⟩ := Name_Handler_matchers _ a.Name (.logger a.HandlerFunc a.Name) (hname a)
  obtain ⟨hb1, hb2⟩ := Name_Handler_matchers _ b.Name (.logger b.HandlerFunc b.Name) (hname b)
  unfold fullMatch routeFor
  rw [ha1, ha2, hb1, hb2, hm, hp]


/-! ## The claims -/

/-- C1, amended: for every route of the declared table, a request with the route's method
and a clean path that is an instance of the route's pattern, other than the request
`GET /styleguide/`, is dispatched to that route: the handler is the route's function
wrapped by `Logger` under the route's name, and the match record names the route. -/
theorem declared_route_dispatch (rel : Release) (dir : String) (i : Nat) (r : Route)
    (p q : List Char) (hr : routes[i]? = some r) (hpat : patternMatches r.Pattern p = true)
    (hclean : cleanPath p = p) (hsg : r.Method = "GET" → p ≠ "/styleguide/".data) :
    ∃ vars, (NewRouter rel dir).ServeHTTP ⟨r.Method, ⟨p, q⟩⟩ =
      .handled (.logger r.HandlerFunc r.Name)
        { Route := some i, Handler := some (.logger r.HandlerFunc r.Name), Vars := vars,
          MatchErr := none } := by
  have hi : i < 5 := by
    by_contra hcon
    have : routes[i]? = none := List.getElem?_eq_none (by simp [routes]; omega)
    rw [this] at hr; exact absurd hr (by simp)
  have hroutes := NewRouter_eq rel dir
  interval_cases i
  · -- Index
    simp only [routes, List.getElem?_cons_succ, List.getElem?_cons_zero, Option.some.injEq] at hr
    subst hr
    simp only at hpat ⊢
    rw [patternMatches_root] at hpat
    have hp : p = ['/'] := by simpa using hpat
    subst hp
    refine ⟨[], ?_⟩
    have := serve_route (q := q) rel dir "GET" ['/'] [] _ _ _ _ (by rw [hroutes]; rfl) hclean
      (by simp) (by simp [fullMatch_stdRoute, rrRoot_Match, endOK]) rfl
      (by rw [setMatch_root])
    rw [this, setMatch_root]; rfl
  · -- Styleguide
    simp only [routes, List.getElem?_cons_succ, List.getElem?_cons_zero, Option.some.injEq] at hr
    subst hr
    simp only at hpat ⊢
    rw [patternMatches_style] at hpat
    have hp : p = "/styleguide".data := by simpa using hpat
    subst hp
    refine ⟨[], ?_⟩
    have := serve_route (q := q) rel dir "GET" "/styleguide".data [_] _ _ _ _ (by rw [hroutes]; rfl)
      hclean
      (by simp [fullMatch_stdRoute, rrRoot_Match, endOK])
      (by simp [fullMatch_stdRoute, rrStyle_Match]) rfl
      (by rw [setMatch_style])
    rw [this, setMatch_style]; rfl
  · -- NewMessage
    simp only [routes, List.getElem?_cons_succ, List.getElem?_cons_zero, Option.some.injEq] at hr
    subst hr
    simp only at hpat ⊢
    rw [patternMatches_root] at hpat
    have hp : p = ['/'] := by simpa using hpat
    subst hp
    refine ⟨[], ?_⟩
    have := serve_route (q := q) rel dir "POST" ['/'] [_, _] _ _ _ _ (by rw [hroutes]; rfl) hclean
      (by simp [fullMatch_stdRoute])
      (by simp [fullMatch_stdRoute, rrRoot_Match, endOK]) rfl
      (by rw [setMatch_root])
    rw [this, setMatch_root]; rfl
  · -- ShowMessage
    simp only [routes, List.getElem?_cons_succ, List.getElem?_cons_zero, Option.some.injEq] at hr
    subst hr
    simp only at hpat ⊢
    obtain ⟨s, hne, hs, rfl⟩ := (patternMatches_token p).mp hpat
    obtain ⟨hf1, -, hf3⟩ := token_path_facts s hne
    have hsg := hsg rfl
    refine ⟨[("token".data, s)], ?_⟩
    have := serve_route (q := q) rel dir "GET" ('/' :: (s ++ ['/'])) [_, _, _] _ _ _ _
      (by rw [hroutes]; rfl) hclean
      (by simp [fullMatch_stdRoute, rrRoot_Match, rrStyle_Match, hf1, hf3, hsg])
      (by simp [fullMatch_stdRoute, rrToken_Match_cons, tokenOf_of s ['/'] hne hs (Or.inr rfl)])
      rfl
      (by rw [setMatch_token_slash _ _ _ _ _ s hne hs])
    rw [this, setMatch_token_slash _ _ _ _ _ s hne hs]; rfl
  · -- DeleteMessage
    simp only [routes, List.getElem?_cons_succ, List.getElem?_cons_zero, Option.some.injEq] at hr
    subst hr
    simp only at hpat ⊢
    obtain ⟨s, hne, hs, rfl⟩ := (patternMatches_token p).mp hpat
    refine ⟨[("token".data, s)], ?_⟩
    have := serve_route (q := q) rel dir "DELETE" ('/' :: (s ++ ['/'])) [_, _, _, _] _ _ _ _
      (by rw [hroutes]; rfl) hclean
      (by simp [fullMatch_stdRoute])
      (by simp [fullMatch_stdRoute, rrToken_Match_cons, tokenOf_of s ['/'] hne hs (Or.inr rfl)])
      rfl
      (by rw [setMatch_token_slash _ _ _ _ _ s hne hs])
    rw [this, setMatch_token_slash _ _ _ _ _ s hne hs]; rfl

theorem declared_route_dispatch_witness :
    ∃ vars, (NewRouter .notAllowed "assets").ServeHTTP ⟨"GET", ⟨"/abc123/".data, []⟩⟩ =
      .handled (.logger (.func "ShowAction") "ShowMessage")
        { Route := some 3, Handler := some (.logger (.func "ShowAction") "ShowMessage"),
          Vars := vars, MatchErr := none } :=
  declared_route_dispatch .notAllowed "assets" 3
    { Name := "ShowMessage", Method := "GET", Pattern := "/{token}/",
      HandlerFunc := .func "ShowAction" } "/abc123/".data [] (by decide) (by decide) (by decide)
    (by decide)

/-- C1 as stated fails: `GET /styleguide/` has the method of the route ShowMessage and is
an instance of its pattern `/{token}/`, yet under every release the request is answered
by the route Styleguide with a redirect to `/styleguide`; and `GET /../` is an instance of
the same pattern, yet the router answers it with a redirect to `/` before any matching. -/
theorem declared_route_dispatch_counterexample :
    patternMatches "/{token}/" "/styleguide/".data = true ∧
      serveAll "assets" (mkReq "GET" "/styleguide/") =
        List.replicate 4 (.handled (.redirect ⟨"/styleguide".data, []⟩ 301)
          { Route := some 1, Handler := some (.redirect ⟨"/styleguide".data, []⟩ 301), Vars := [],
            MatchErr := none }) ∧
      patternMatches "/{token}/" "/../".data = true ∧
      serveAll "assets" (mkReq "GET" "/../") =
        List.replicate 4 (.movedPermanently ⟨"/".data, []⟩) := by
  decide

/-- C2, amended: a request that no route of the declared table matches, with a clean path
that does not begin with `/static/`, is answered by exactly one handler, with no route in
the match record and no variable bound: the not-found handler, `NotFound` wrapped by
`Logger` under the name `404` (one run of `Logger`), or else the built-in answer 405 of
the router; the answer 405 occurs only in a release in which the not-found handler does
not come before it and only when the path matches a pattern of the table (under another
method), so a path that no pattern of the table matches always gets the not-found
handler. -/
theorem unmatched_not_found (rel : Release) (dir m : String) (p q : List Char)
    (hclean : cleanPath p = p)
    (hno : ∀ r ∈ routes, routeMatches r ⟨m, ⟨p, q⟩⟩ = false)
    (hst : staticDirPathPrefix.data.isPrefixOf p = false) :
    ∃ h mt, (NewRouter rel dir).ServeHTTP ⟨m, ⟨p, q⟩⟩ = .handled h mt ∧
      mt.Route = none ∧ mt.Vars = [] ∧
      (h = .logger .notFoundFunc "404" ∨ h = .methodNotAllowed) ∧
      (h = .methodNotAllowed →
        rel.notFoundFirst = false ∧ ∃ r ∈ routes, patternMatchesStrict r.Pattern p = true) ∧
      (Handler.logger .notFoundFunc "404").loggerCount = 1 ∧
      (Handler.logger .notFoundFunc "404").loggerNames = ["404"] := by
  have hG : toUpper "GET" = "GET" := by decide
  have hP : toUpper "POST" = "POST" := by decide
  have hD : toUpper "DELETE" = "DELETE" := by decide
  have h0 := hno ⟨"Index", "GET", "/", .func "IndexAction"⟩ (by decide)
  have h1 := hno ⟨"Styleguide", "GET", "/styleguide", .func "StyleguideAction"⟩ (by decide)
  have h2 := hno ⟨"NewMessage", "POST", "/", .func "NewMessageAction"⟩ (by decide)
  have h3 := hno ⟨"ShowMessage", "GET", "/{token}/", .func "ShowAction"⟩ (by decide)
  have h4 := hno ⟨"DeleteMessage", "DELETE", "/{token}/", .func "DeleteMessageAction"⟩
    (by decide)
  simp only [routeMatches, hG, hP, hD, patternMatchesStrict_root, patternMatchesStrict_style,
    patternMatchesStrict_token] at h0 h1 h2 h3 h4
  have hS : rrStatic.Match p = false := by rw [rrStatic_Match]; exact hst
  obtain ⟨b2, hserve, himp⟩ := serve_none (q := q) rel dir m p hclean (by
    rw [NewRouter_eq]
    intro x hx
    simp only [List.mem_cons, List.mem_singleton, List.not_mem_nil, or_false] at hx
    rcases hx with rfl | rfl | rfl | rfl | rfl | rfl
    · rw [fullMatch_stdRoute]; exact h0
    · rw [fullMatch_stdRoute]; exact h1
    · rw [fullMatch_stdRoute]; exact h2
    · rw [fullMatch_stdRoute]; exact h3
    · rw [fullMatch_stdRoute]; exact h4
    · rw [fullMatch_staticRoute]; exact hS)
  by_cases hcond : b2 = true ∧ rel.notFoundFirst = false
  · rw [if_pos hcond] at hserve
    refine ⟨_, _, hserve, rfl, rfl, Or.inr rfl, fun _ => ⟨hcond.2, ?_⟩, rfl, rfl⟩
    obtain ⟨x, hx, hp⟩ := himp hcond.1
    rw [NewRouter_eq] at hx
    simp only [List.mem_cons, List.mem_singleton, List.not_mem_nil, or_false] at hx
    rcases hx with rfl | rfl | rfl | rfl | rfl | rfl
    · rw [pathMatch_stdRoute] at hp
      exact ⟨⟨"Index", "GET", "/", .func "IndexAction"⟩, by decide,
        by rw [patternMatchesStrict_root]; exact hp⟩
    · rw [pathMatch_stdRoute] at hp
      exact ⟨⟨"Styleguide", "GET", "/styleguide", .func "StyleguideAction"⟩, by decide,
        by rw [patternMatchesStrict_style]; exact hp⟩
    · rw [pathMatch_stdRoute] at hp
      exact ⟨⟨"Index", "GET", "/", .func "IndexAction"⟩, by decide,
        by rw [patternMatchesStrict_root]; exact hp⟩
    · rw [pathMatch_stdRoute] at hp
      exact ⟨⟨"ShowMessage", "GET", "/{token}/", .func "ShowAction"⟩, by decide,
        by rw [patternMatchesStrict_token]; exact hp⟩
    · rw [pathMatch_stdRoute] at hp
      exact ⟨⟨"ShowMessage", "GET", "/{token}/", .func "ShowAction"⟩, by decide,
        by rw [patternMatchesStrict_token]; exact hp⟩
    · rw [pathMatch_staticRoute, hS] at hp
      exact absurd hp (by simp)
  · rw [if_neg hcond] at hserve
    exact ⟨_, _, hserve, rfl, rfl, Or.inl rfl, fun h => absurd h (by simp), rfl, rfl⟩

theorem unmatched_not_found_witness :
    ∃ h mt, (NewRouter .notAllowed "assets").ServeHTTP ⟨"GET", ⟨"/a/b".data, []⟩⟩ =
        .handled h mt ∧
      mt.Route = none ∧ mt.Vars = [] ∧
      (h = .logger .notFoundFunc "404" ∨ h = .methodNotAllowed) ∧
      (h = .methodNotAllowed →
        Release.notAllowed.notFoundFirst = false ∧
          ∃ r ∈ routes, patternMatchesStrict r.Pattern "/a/b".data = true) ∧
      (Handler.logger .notFoundFunc "404").loggerCount = 1 ∧
      (Handler.logger .notFoundFunc "404").loggerNames = ["404"] :=
  unmatched_not_found .notAllowed "assets" "GET" "/a/b".data [] (by decide) (by decide)
    (by decide)

/-- C2 as stated fails: `POST /static/app.css` is matched by no route of the declared
table, yet under every release it is handed to the file handler, not to the not-found
handler; `PUT /` is matched by no route of the table either, yet the releases that
answer a method mismatch with status 405 do so here, since the path matches a route
under another method; and `GET /a//b`, matched by no route, is redirected to the clean
path `/a/b` under every release. -/
theorem unmatched_not_found_counterexample :
    routes.any (fun r => routeMatches r (mkReq "POST" "/static/app.css")) = false ∧
      serveAll "assets" (mkReq "POST" "/static/app.css") =
        List.replicate 4 (.handled (.stripPrefix "/static/" (.fileServer "assets"))
          { Route := some 5, Handler := some (.stripPrefix "/static/" (.fileServer "assets")),
            Vars := [], MatchErr := none }) ∧
      routes.any (fun r => routeMatches r (mkReq "PUT" "/")) = false ∧
      (NewRouter .notAllowed "assets").ServeHTTP (mkReq "PUT" "/") =
        .handled .methodNotAllowed (pending true) ∧
      (NewRouter .cleared "assets").ServeHTTP (mkReq "PUT" "/") =
        .handled .methodNotAllowed (pending true) ∧
      routes.any (fun r => routeMatches r (mkReq "GET" "/a//b")) = false ∧
      serveAll "assets" (mkReq "GET" "/a//b") =
        List.replicate 4 (.movedPermanently ⟨"/a/b".data, []⟩) := by
  decide

/-- C3, amended: a request of any method whose clean path begins with `/static/`, other
than the path `/static/` itself under `GET` or `DELETE`, is handed to the file handler
`StripPrefix("/static/", FileServer(assetsDir))`, which sees the path without the prefix;
the match record names the static route (position 5), no route of the declared table. -/
theorem static_prefix_dispatch (rel : Release) (dir m : String) (rest q : List Char)
    (hclean : cleanPath (staticDirPathPrefix.data ++ rest) = staticDirPathPrefix.data ++ rest)
    (hne : rest ≠ [] ∨ (m ≠ "GET" ∧ m ≠ "DELETE")) :
    (NewRouter rel dir).ServeHTTP ⟨m, ⟨staticDirPathPrefix.data ++ rest, q⟩⟩ =
        .handled (.stripPrefix staticDirPathPrefix (.fileServer dir))
          { Route := some 5,
            Handler := some (.stripPrefix staticDirPathPrefix (.fileServer dir)),
            Vars := [], MatchErr := none } ∧
      stripPrefixPath staticDirPathPrefix.data (staticDirPathPrefix.data ++ rest) = some rest ∧
      routes.length = 5 := by
  refine ⟨serve_static rel dir m rest hclean hne, ?_, rfl⟩
  have hpre : staticDirPathPrefix.data.isPrefixOf (staticDirPathPrefix.data ++ rest) = true :=
    List.isPrefixOf_iff_prefix.mpr ⟨rest, rfl⟩
  unfold stripPrefixPath
  rw [if_pos ⟨hpre, by decide⟩, List.drop_left]

theorem static_prefix_dispatch_witness :
    (NewRouter .notAllowed "assets").ServeHTTP
          ⟨"GET", ⟨staticDirPathPrefix.data ++ "css/app.css".data, "v=2".data⟩⟩ =
        .handled (.stripPrefix staticDirPathPrefix (.fileServer "assets"))
          { Route := some 5,
            Handler := some (.stripPrefix staticDirPathPrefix (.fileServer "assets")),
            Vars := [], MatchErr := none } ∧
      stripPrefixPath staticDirPathPrefix.data (staticDirPathPrefix.data ++ "css/app.css".data) =
        some "css/app.css".data ∧
      routes.length = 5 :=
  static_prefix_dispatch .notAllowed "assets" "GET" "css/app.css".data "v=2".data (by decide)
    (Or.inl (by decide))

/-- C3 as stated fails: the path `/static/` begins with the prefix `/static/`, yet under
every release `GET /static/` is dispatched to the route ShowMessage with
`token = "static"`, and `DELETE /static/` to the route DeleteMessage: the routes of the
table are tried before the static route; and `GET /static/../secret`, which begins with
the prefix too, is redirected to the clean path `/secret`. -/
theorem static_prefix_dispatch_counterexample :
    serveAll "assets" (mkReq "GET" "/static/") =
        List.replicate 4 (.handled (.logger (.func "ShowAction") "ShowMessage")
          { Route := some 3, Handler := some (.logger (.func "ShowAction") "ShowMessage"),
            Vars := [("token".data, "static".data)], MatchErr := none }) ∧
      serveAll "assets" (mkReq "DELETE" "/static/") =
        List.replicate 4 (.handled (.logger (.func "DeleteMessageAction") "DeleteMessage")
          { Route := some 4,
            Handler := some (.logger (.func "DeleteMessageAction") "DeleteMessage"),
            Vars := [("token".data, "static".data)], MatchErr := none }) ∧
      serveAll "assets" (mkReq "GET" "/static/../secret") =
        List.replicate 4 (.movedPermanently ⟨"/secret".data, []⟩) := by
  decide

/-- C4, amended: for the placeholder pattern `/{token}/` and a non-empty path component
`s` without slash, other than `.` and `..`, whatever the query of the request:
`DELETE /s/` binds `token = s` and invokes the handler of DeleteMessage, and so does
`GET /s/` for ShowMessage when `s` is not `styleguide`; `/s` without the trailing slash is
answered, under the same conditions, by the redirect handler (301) whose target is the
URL of the request with the path `/s/`, with the token bound and no handler of the table
invoked; and the path `/` never selects a `/{token}/` route nor binds a token: it is
served by Index under `GET` and by NewMessage under `POST`. -/
theorem token_binding (rel : Release) (dir : String) (s q : List Char) (hne : s ≠ [])
    (hs : '/' ∉ s) (hd : s ≠ ['.']) (hdd : s ≠ ['.', '.']) :
    (s ≠ "styleguide".data →
        (NewRouter rel dir).ServeHTTP ⟨"GET", ⟨'/' :: (s ++ ['/']), q⟩⟩ =
          .handled (.logger (.func "ShowAction") "ShowMessage")
            { Route := some 3, Handler := some (.logger (.func "ShowAction") "ShowMessage"),
              Vars := [("token".data, s)], MatchErr := none } ∧
        (NewRouter rel dir).ServeHTTP ⟨"GET", ⟨'/' :: s, q⟩⟩ =
          .handled (.redirect ⟨'/' :: (s ++ ['/']), q⟩ 301)
            { Route := some 3, Handler := some (.redirect ⟨'/' :: (s ++ ['/']), q⟩ 301),
              Vars := [("token".data, s)], MatchErr := none }) ∧
      (NewRouter rel dir).ServeHTTP ⟨"DELETE", ⟨'/' :: (s ++ ['/']), q⟩⟩ =
        .handled (.logger (.func "DeleteMessageAction") "DeleteMessage")
          { Route := some 4,
            Handler := some (.logger (.func "DeleteMessageAction") "DeleteMessage"),
            Vars := [("token".data, s)], MatchErr := none } ∧
      (NewRouter rel dir).ServeHTTP ⟨"DELETE", ⟨'/' :: s, q⟩⟩ =
        .handled (.redirect ⟨'/' :: (s ++ ['/']), q⟩ 301)
          { Route := some 4, Handler := some (.redirect ⟨'/' :: (s ++ ['/']), q⟩ 301),
            Vars := [("token".data, s)], MatchErr := none } ∧
      (NewRouter rel dir).ServeHTTP ⟨"GET", ⟨['/'], q⟩⟩ =
        .handled (.logger (.func "IndexAction") "Index")
          { Route := some 0, Handler := some (.logger (.func "IndexAction") "Index"),
            Vars := [], MatchErr := none } ∧
      (NewRouter rel dir).ServeHTTP ⟨"POST", ⟨['/'], q⟩⟩ =
        .handled (.logger (.func "NewMessageAction") "NewMessage")
          { Route := some 2, Handler := some (.logger (.func "NewMessageAction") "NewMessage"),
            Vars := [], MatchErr := none } ∧
      ∀ m, ∃ h mt, (NewRouter rel dir).ServeHTTP ⟨m, ⟨['/'], q⟩⟩ = .handled h mt ∧ mt.Vars = [] ∧
        mt.Route ≠ some 3 ∧ mt.Route ≠ some 4 := by
  obtain ⟨hc1, hc2⟩ := cleanPath_token s hne hs hd hdd
  refine ⟨fun hsg => ⟨serve_show rel dir s hne hs hc2 hsg,
      serve_show_redirect rel dir s hne hs hc1 hsg⟩,
    serve_delete rel dir s hne hs hc2, serve_delete_redirect rel dir s hne hs hc1,
    serve_index rel dir, serve_new rel dir, fun m => ?_⟩
  by_cases hg : m = "GET"
  · subst hg; exact ⟨_, _, serve_index rel dir, rfl, by simp, by simp⟩
  · by_cases hp : m = "POST"
    · subst hp; exact ⟨_, _, serve_new rel dir, rfl, by simp, by simp⟩
    · have htok : rrToken.Match ['/'] = false := by decide
      obtain ⟨b2, hserve, -⟩ := serve_none (q := q) rel dir m ['/'] (by decide) (by
        rw [NewRouter_eq]
        simp [fullMatch_stdRoute, fullMatch_staticRoute, hg, hp, htok, rrStatic_Match])
      split at hserve
      · exact ⟨_, _, hserve, rfl, by simp [pending], by simp [pending]⟩
      · exact ⟨_, _, hserve, rfl, by simp, by simp⟩

theorem token_binding_witness :
    ("a b".data ≠ "styleguide".data →
        (NewRouter .notAllowed "assets").ServeHTTP
            ⟨"GET", ⟨'/' :: ("a b".data ++ ['/']), "x=1".data⟩⟩ =
          .handled (.logger (.func "ShowAction") "ShowMessage")
            { Route := some 3, Handler := some (.logger (.func "ShowAction") "ShowMessage"),
              Vars := [("token".data, "a b".data)], MatchErr := none } ∧
        (NewRouter .notAllowed "assets").ServeHTTP ⟨"GET", ⟨'/' :: "a b".data, "x=1".data⟩⟩ =
          .handled (.redirect ⟨'/' :: ("a b".data ++ ['/']), "x=1".data⟩ 301)
            { Route := some 3,
              Handler := some (.redirect ⟨'/' :: ("a b".data ++ ['/']), "x=1".data⟩ 301),
              Vars := [("token".data, "a b".data)], MatchErr := none }) ∧
      (NewRouter .notAllowed "assets").ServeHTTP
          ⟨"DELETE", ⟨'/' :: ("a b".data ++ ['/']), "x=1".data⟩⟩ =
        .handled (.logger (.func "DeleteMessageAction") "DeleteMessage")
          { Route := some 4,
            Handler := some (.logger (.func "DeleteMessageAction") "DeleteMessage"),
            Vars := [("token".data, "a b".data)], MatchErr := none } ∧
      (NewRouter .notAllowed "assets").ServeHTTP ⟨"DELETE", ⟨'/' :: "a b".data, "x=1".data⟩⟩ =
        .handled (.redirect ⟨'/' :: ("a b".data ++ ['/']), "x=1".data⟩ 301)
          { Route := some 4, Handler := some (.redirect ⟨'/' :: ("a b".data ++ ['/']), "x=1".data⟩ 301),
            Vars := [("token".data, "a b".data)], MatchErr := none } ∧
      (NewRouter .notAllowed "assets").ServeHTTP ⟨"GET", ⟨['/'], "x=1".data⟩⟩ =
        .handled (.logger (.func "IndexAction") "Index")
          { Route := some 0, Handler := some (.logger (.func "IndexAction") "Index"),
            Vars := [], MatchErr := none } ∧
      (NewRouter .notAllowed "assets").ServeHTTP ⟨"POST", ⟨['/'], "x=1".data⟩⟩ =
        .handled (.logger (.func "NewMessageAction") "NewMessage")
          { Route := some 2, Handler := some (.logger (.func "NewMessageAction") "NewMessage"),
            Vars := [], MatchErr := none } ∧
      ∀ m, ∃ h mt, (NewRouter .notAllowed "assets").ServeHTTP
          ⟨m, ⟨['/'], "x=1".data⟩⟩ = .handled h mt ∧
        mt.Vars = [] ∧ mt.Route ≠ some 3 ∧ mt.Route ≠ some 4 :=
  token_binding .notAllowed "assets" "a b".data "x=1".data (by decide) (by decide)
    (by decide) (by decide)

/-- C4 as stated fails: under every release `GET /` is answered by the handler of the
route Index, which is neither the not-found handler nor a redirect; `GET /styleguide/`,
with the non-empty component `styleguide`, binds no token and is redirected to
`/styleguide` by the route Styleguide; and `GET /./`, with the non-empty component `.`,
is redirected to `/` before any matching. -/
theorem token_binding_counterexample :
    serveAll "assets" (mkReq "GET" "/") =
        List.replicate 4 (.handled (.logger (.func "IndexAction") "Index")
          { Route := some 0, Handler := some (.logger (.func "IndexAction") "Index"),
            Vars := [], MatchErr := none }) ∧
      serveAll "assets" (mkReq "GET" "/styleguide/") =
        List.replicate 4 (.handled (.redirect ⟨"/styleguide".data, []⟩ 301)
          { Route := some 1, Handler := some (.redirect ⟨"/styleguide".data, []⟩ 301), Vars := [],
            MatchErr := none }) ∧
      serveAll "assets" (mkReq "GET" "/./") =
        List.replicate 4 (.movedPermanently ⟨"/".data, []⟩) := by
  decide

/-- C5, amended: under strict slash, for every method, every query and every clean path
`p` without trailing slash, `p` and `p/` are served by the same route of the declared
table, or both by none; and a request with the method of a declared route whose clean
path matches the route's pattern but for the trailing slash is answered by the redirect
handler (301) whose target is the URL of the request with the path in canonical form,
which is an instance of the pattern, with the route in the match record, except
`GET /styleguide`, which matches `/{token}/` but for the slash and is served by the route
Styleguide. -/
theorem strict_slash_policy (rel : Release) (dir : String) (q : List Char) :
    (∀ (m : String) (p : List Char), cleanPath p = p → p.getLast? ≠ some '/' →
        declaredRoute ((NewRouter rel dir).ServeHTTP ⟨m, ⟨p, q⟩⟩) =
          declaredRoute ((NewRouter rel dir).ServeHTTP ⟨m, ⟨p ++ ['/'], q⟩⟩)) ∧
      (∀ (i : Nat) (r : Route) (p : List Char), routes[i]? = some r → cleanPath p = p →
        patternMatchesStrict r.Pattern p = true → patternMatches r.Pattern p = false →
        (r.Method = "GET" → p ≠ "/styleguide".data) →
        ∃ vars, (NewRouter rel dir).ServeHTTP ⟨r.Method, ⟨p, q⟩⟩ =
            .handled (.redirect ⟨canonicalPath r.Pattern p, q⟩ 301)
              { Route := some i, Handler := some (.redirect ⟨canonicalPath r.Pattern p, q⟩ 301),
                Vars := vars, MatchErr := none } ∧
          patternMatches r.Pattern (canonicalPath r.Pattern p) = true) := by
  constructor
  · intro m p hclean hl
    have hclean2 := cleanPath_append_slash p hclean hl
    rw [declaredRoute_serve rel dir m p hclean, declaredRoute_serve rel dir m _ hclean2]
    obtain ⟨q, rfl⟩ := cleanPath_head p hclean
    have hq : q ≠ [] := by rintro rfl; exact hl rfl
    have hql : q.getLast? ≠ some '/' := by
      obtain ⟨a, t, rfl⟩ := List.exists_cons_of_ne_nil hq
      rw [List.getLast?_cons_cons] at hl
      exact hl
    obtain ⟨a, t, rfl⟩ := List.exists_cons_of_ne_nil hq
    have hR1 : rrRoot.Match ('/' :: a :: t) = false := by simp [rrRoot_Match, endOK]
    have hR2 : rrRoot.Match ('/' :: a :: t ++ ['/']) = false := by simp [rrRoot_Match, endOK]
    have hS : rrStyle.Match ('/' :: a :: t ++ ['/']) = rrStyle.Match ('/' :: a :: t) := by
      rw [rrStyle_Match, rrStyle_Match]
      have h1 : '/' :: a :: t ≠ "/styleguide/".data := by
        intro h
        apply hl
        rw [h]; rfl
      have h2 : '/' :: a :: t ++ ['/'] ≠ "/styleguide".data := by
        intro h
        have h3 := congrArg List.getLast? h
        rw [List.getLast?_concat] at h3
        exact absurd h3 (by decide)
      have h3 : ('/' :: a :: t ++ ['/'] = "/styleguide/".data) ↔
          ('/' :: a :: t = "/styleguide".data) := by
        constructor
        · intro h
          exact List.append_cancel_right (show _ ++ ['/'] = "/styleguide".data ++ ['/'] from h)
        · intro h; rw [h]; rfl
      simp only [h1, h2, h3, or_false, false_or]
    have hT : rrToken.Match ('/' :: a :: t ++ ['/']) = rrToken.Match ('/' :: a :: t) := by
      have e : '/' :: a :: t ++ ['/'] = '/' :: ((a :: t) ++ ['/']) := rfl
      rw [e, rrToken_Match_cons, rrToken_Match_cons, tokenOf_append_slash _ hql]
    apply firstMatch_congr
    intro x hx
    simp only [List.mem_cons, List.mem_singleton, List.not_mem_nil, or_false] at hx
    rcases hx with rfl | rfl | rfl | rfl | rfl <;>
      simp only [fullMatch_stdRoute, hR1, hR2, hS, hT]
  · intro i r p hr hclean hstrict hexact hsg
    have hi : i < 5 := by
      by_contra hcon
      have : routes[i]? = none := List.getElem?_eq_none (by simp [routes]; omega)
      rw [this] at hr; exact absurd hr (by simp)
    have hroot : ∀ q, rrRoot.Match q = true → patternMatches "/" q = false →
        cleanPath q = q → False := by
      intro q h1 h2 h3
      rw [rrRoot_Match] at h1
      rw [patternMatches_root] at h2
      simp only [endOK, decide_eq_true_eq] at h1
      rcases h1 with rfl | rfl
      · exact absurd h3 (by decide)
      · simp at h2
    interval_cases i
    · simp only [routes, List.getElem?_cons_succ, List.getElem?_cons_zero,
        Option.some.injEq] at hr
      subst hr
      rw [patternMatchesStrict_root] at hstrict
      exact (hroot p hstrict hexact hclean).elim
    · simp only [routes, List.getElem?_cons_succ, List.getElem?_cons_zero,
        Option.some.injEq] at hr
      subst hr
      simp only at hstrict hexact ⊢
      rw [patternMatchesStrict_style, rrStyle_Match] at hstrict
      rw [patternMatches_style] at hexact
      have hp : p = "/styleguide/".data := by
        simp only [decide_eq_true_eq, decide_eq_false_iff_not] at hstrict hexact
        rcases hstrict with h | h
        · exact absurd h hexact
        · exact h
      subst hp
      exact ⟨[], by rw [serve_style_slash]; rfl, by decide⟩
    · simp only [routes, List.getElem?_cons_succ, List.getElem?_cons_zero,
        Option.some.injEq] at hr
      subst hr
      rw [patternMatchesStrict_root] at hstrict
      exact (hroot p hstrict hexact hclean).elim
    · simp only [routes, List.getElem?_cons_succ, List.getElem?_cons_zero,
        Option.some.injEq] at hr
      subst hr
      simp only at hstrict hexact hsg ⊢
      rw [patternMatchesStrict_token] at hstrict
      obtain ⟨s, hne, hs, hp | hp⟩ := (rrToken_Match_iff p).mp hstrict
      · subst hp
        have hsg2 : s ≠ "styleguide".data := by
          intro h; exact hsg trivial (by rw [h])
        have hl : ('/' :: s).getLast? ≠ some '/' := by
          obtain ⟨a, t, rfl⟩ := List.exists_cons_of_ne_nil hne
          rw [List.getLast?_cons_cons]
          exact getLast?_noslash _ hs
        have hcan : canonicalPath "/{token}/" ('/' :: s) = '/' :: (s ++ ['/']) := by
          unfold canonicalPath
          rw [if_pos (by decide), if_neg hl]; rfl
        rw [hcan]
        exact ⟨_, serve_show_redirect rel dir s hne hs hclean hsg2,
          (patternMatches_token _).mpr ⟨s, hne, hs, rfl⟩⟩
      · exfalso
        have := (patternMatches_token p).mpr ⟨s, hne, hs, hp⟩
        rw [this] at hexact
        exact absurd hexact (by simp)
    · simp only [routes, List.getElem?_cons_succ, List.getElem?_cons_zero,
        Option.some.injEq] at hr
      subst hr
      simp only at hstrict hexact hsg ⊢
      rw [patternMatchesStrict_token] at hstrict
      obtain ⟨s, hne, hs, hp | hp⟩ := (rrToken_Match_iff p).mp hstrict
      · subst hp
        have hl : ('/' :: s).getLast? ≠ some '/' := by
          obtain ⟨a, t, rfl⟩ := List.exists_cons_of_ne_nil hne
          rw [List.getLast?_cons_cons]
          exact getLast?_noslash _ hs
        have hcan : canonicalPath "/{token}/" ('/' :: s) = '/' :: (s ++ ['/']) := by
          unfold canonicalPath
          rw [if_pos (by decide), if_neg hl]; rfl
        rw [hcan]
        exact ⟨_, serve_delete_redirect rel dir s hne hs hclean,
          (patternMatches_token _).mpr ⟨s, hne, hs, rfl⟩⟩
      · exfalso
        have := (patternMatches_token p).mpr ⟨s, hne, hs, hp⟩
        rw [this] at hexact
        exact absurd hexact (by simp)

theorem strict_slash_policy_witness :
    declaredRoute ((NewRouter .notAllowed "assets").ServeHTTP
          ⟨"GET", ⟨"/abc123".data, "x=1".data⟩⟩) =
        declaredRoute ((NewRouter .notAllowed "assets").ServeHTTP
          ⟨"GET", ⟨"/abc123".data ++ ['/'], "x=1".data⟩⟩) ∧
      ∃ vars, (NewRouter .notAllowed "assets").ServeHTTP ⟨"GET", ⟨"/a b".data, "x=1".data⟩⟩ =
          .handled (.redirect ⟨canonicalPath "/{token}/" "/a b".data, "x=1".data⟩ 301)
            { Route := some 3,
              Handler :=
                some (.redirect ⟨canonicalPath "/{token}/" "/a b".data, "x=1".data⟩ 301),
              Vars := vars, MatchErr := none } ∧
        patternMatches "/{token}/" (canonicalPath "/{token}/" "/a b".data) = true :=
  ⟨(strict_slash_policy .notAllowed "assets" "x=1".data).1 "GET" "/abc123".data (by decide)
      (by decide),
    (strict_slash_policy .notAllowed "assets" "x=1".data).2 3
      { Name := "ShowMessage", Method := "GET", Pattern := "/{token}/",
        HandlerFunc := .func "ShowAction" } "/a b".data (by decide) (by decide)
      (by decide) (by decide) (by decide)⟩

/-- C5 as stated fails: `GET /styleguide` matches the pattern `/{token}/` of the route
ShowMessage but for the missing trailing slash, yet under every release it is not
redirected to `/styleguide/`: it is dispatched to another route, Styleguide; and the
empty path and the same path with a trailing slash, `/`, are not served by the same
route: `GET` of the empty path is redirected to `/` before any matching, `GET /` is
served by Index. -/
theorem strict_slash_policy_counterexample :
    patternMatchesStrict "/{token}/" "/styleguide".data = true ∧
      patternMatches "/{token}/" "/styleguide".data = false ∧
      patternMatches "/{token}/" "/styleguide/".data = true ∧
      serveAll "assets" (mkReq "GET" "/styleguide") =
        List.replicate 4 (.handled (.logger (.func "StyleguideAction") "Styleguide")
          { Route := some 1,
            Handler := some (.logger (.func "StyleguideAction") "Styleguide"),
            Vars := [], MatchErr := none }) ∧
      (serveAll "assets" (mkReq "GET" "")).map declaredRoute = List.replicate 4 none ∧
      (serveAll "assets" (mkReq "GET" "/")).map declaredRoute = List.replicate 4 (some 0) := by
  decide

/-- C6: when the dispatcher hands a request to the handler of a route of the declared
table (the match record names the route and the handler is not the strict-slash
redirect), the handler is that route's function wrapped by `Logger` under that route's
own name, and `Logger` runs exactly once; when it hands a request to the not-found
fallback (no route in the match record and not the answer 405), the handler is `NotFound`
wrapped by `Logger` under the name `404`, and `Logger` runs exactly once. -/
theorem logger_exactly_once (rel : Release) (dir : String) (req : Request) (h : Handler)
    (mt : RouteMatch) (hserve : (NewRouter rel dir).ServeHTTP req = .handled h mt) :
    (∀ i r, mt.Route = some i → routes[i]? = some r → (∀ u c, h ≠ .redirect u c) →
        h = .logger r.HandlerFunc r.Name ∧ h.loggerCount = 1 ∧ h.loggerNames = [r.Name]) ∧
      (mt.Route = none → h ≠ .methodNotAllowed →
        h = .logger .notFoundFunc "404" ∧ h.loggerCount = 1 ∧ h.loggerNames = ["404"]) := by
  rcases serve_cases rel dir req h mt hserve with
    ⟨k, r6, hd, hk, hhd, -, hmt, hmh⟩ | ⟨hnone, hh⟩
  · have hroute : mt.Route = some k := by rw [hmt, setMatch_Route]
    constructor
    · intro i r hi hr hnr
      rw [hroute] at hi
      have hki : k = i := Option.some.inj hi
      subst hki
      have hhd2 : h = hd := by
        rcases setMatch_Handler r6 req
          { Route := some k, Handler := some hd, Vars := [], MatchErr := none } with h1 | ⟨u, h1⟩
        · rw [← hmt, hmh] at h1
          exact Option.some.inj h1
        · rw [← hmt, hmh] at h1
          exact absurd (Option.some.inj h1) (hnr u 301)
      subst hhd2
      have hk5 : k < 5 := by
        by_contra hcon
        have : routes[k]? = none := List.getElem?_eq_none (by simp [routes]; omega)
        rw [this] at hr; exact absurd hr (by simp)
      rw [NewRouter_eq] at hk
      interval_cases k <;>
        simp only [routes, List.getElem?_cons_succ, List.getElem?_cons_zero,
          Option.some.injEq] at hr hk <;>
        subst hr hk <;>
        simp only [stdRoute, Option.some.injEq] at hhd <;>
        subst hhd <;>
        exact ⟨rfl, rfl, rfl⟩
    · intro hn
      rw [hroute] at hn
      exact absurd hn (by simp)
  · constructor
    · intro i r hi
      rw [hnone] at hi
      exact absurd hi (by simp)
    · intro _ hna
      rcases hh with h1 | h1
      · exact absurd h1 hna
      · subst h1
        exact ⟨rfl, rfl, rfl⟩

theorem logger_exactly_once_witness :
    ((Handler.logger (.func "ShowAction") "ShowMessage") =
          .logger (.func "ShowAction") "ShowMessage" ∧
        (Handler.logger (.func "ShowAction") "ShowMessage").loggerCount = 1 ∧
        (Handler.logger (.func "ShowAction") "ShowMessage").loggerNames = ["ShowMessage"]) ∧
      ((Handler.logger .notFoundFunc "404") = .logger .notFoundFunc "404" ∧
        (Handler.logger .notFoundFunc "404").loggerCount = 1 ∧
        (Handler.logger .notFoundFunc "404").loggerNames = ["404"]) :=
  ⟨(logger_exactly_once .notAllowed "assets" ⟨"GET", ⟨"/abc123/".data, []⟩⟩
      (.logger (.func "ShowAction") "ShowMessage")
      { Route := some 3, Handler := some (.logger (.func "ShowAction") "ShowMessage"),
        Vars := [("token".data, "abc123".data)], MatchErr := none } (by decide)).1 3
      { Name := "ShowMessage", Method := "GET", Pattern := "/{token}/",
        HandlerFunc := .func "ShowAction" } rfl (by decide) (by intro u c; simp),
    (logger_exactly_once .notAllowed "assets" ⟨"GET", ⟨"/a/b".data, []⟩⟩
      (.logger .notFoundFunc "404")
      { Route := none, Handler := some (.logger .notFoundFunc "404"), Vars := [],
        MatchErr := some .ErrNotFound } (by decide)).2 rfl (by simp)⟩

/-- C7: every pair of method and pattern in the declared table is unique: two routes at
distinct positions differ in their method or in their pattern. -/
theorem method_pattern_unique (i j : Nat) (a b : Route) (hi : routes[i]? = some a)
    (hj : routes[j]? = some b) (hij : i ≠ j) :
    a.Method ≠ b.Method ∨ a.Pattern ≠ b.Pattern := by
  have hi5 : i < 5 := by
    by_contra hcon
    have : routes[i]? = none := List.getElem?_eq_none (by simp [routes]; omega)
    rw [this] at hi; exact absurd hi (by simp)
  have hj5 : j < 5 := by
    by_contra hcon
    have : routes[j]? = none := List.getElem?_eq_none (by simp [routes]; omega)
    rw [this] at hj; exact absurd hj (by simp)
  interval_cases i <;> interval_cases j <;>
    first
    | exact absurd rfl hij
    | (simp only [routes, List.getElem?_cons_succ, List.getElem?_cons_zero,
        Option.some.injEq] at hi hj
       subst hi hj
       decide)

theorem method_pattern_unique_witness :
    (Route.mk "Index" "GET" "/" (.func "IndexAction")).Method ≠
        (Route.mk "NewMessage" "POST" "/" (.func "NewMessageAction")).Method ∨
      (Route.mk "Index" "GET" "/" (.func "IndexAction")).Pattern ≠
        (Route.mk "NewMessage" "POST" "/" (.func "NewMessageAction")).Pattern :=
  method_pattern_unique 0 2 _ _ rfl rfl (by decide)

/-- C8, amended: two distinct routes of the declared table match the same request, under
the matching rules of the router (exact method, placeholder segments, strict slash), only
for `GET /styleguide` and `GET /styleguide/`, which both Styleguide (position 1) and
ShowMessage (position 3) match; no other request is matched by two routes of the table.
For these two requests the earlier route, Styleguide, is the one selected. -/
theorem overlap_only_styleguide (rel : Release) (dir : String) (q : List Char) :
    (∀ (m : String) (p : List Char) (i j : Nat) (a b : Route), routes[i]? = some a →
        routes[j]? = some b → i < j → routeMatches a ⟨m, ⟨p, q⟩⟩ = true →
        routeMatches b ⟨m, ⟨p, q⟩⟩ = true →
        i = 1 ∧ j = 3 ∧ m = "GET" ∧ (p = "/styleguide".data ∨ p = "/styleguide/".data)) ∧
      declaredRoute ((NewRouter rel dir).ServeHTTP ⟨"GET", ⟨"/styleguide".data, q⟩⟩) = some 1 ∧
      declaredRoute ((NewRouter rel dir).ServeHTTP ⟨"GET", ⟨"/styleguide/".data, q⟩⟩) = some 1 := by
  refine ⟨?_, by rw [serve_style]; rfl, by rw [serve_style_slash]; rfl⟩
  intro m p i j a b hi hj hij ha hb
  have hj5 : j < 5 := by
    by_contra hcon
    have : routes[j]? = none := List.getElem?_eq_none (by simp [routes]; omega)
    rw [this] at hj; exact absurd hj (by simp)
  have hG : toUpper "GET" = "GET" := by decide
  have hP : toUpper "POST" = "POST" := by decide
  have hD : toUpper "DELETE" = "DELETE" := by decide
  have hRT : ∀ q, rrRoot.Match q = true → rrToken.Match q = true → False := by
    intro q h1 h2
    rw [rrRoot_Match] at h1
    simp only [endOK, decide_eq_true_eq] at h1
    rcases h1 with rfl | rfl
    · exact absurd h2 (by decide)
    · exact absurd h2 (by decide)
  have hRS : ∀ q, rrRoot.Match q = true → rrStyle.Match q = true → False := by
    intro q h1 h2
    rw [rrRoot_Match] at h1
    simp only [endOK, decide_eq_true_eq] at h1
    rcases h1 with rfl | rfl
    · exact absurd h2 (by decide)
    · exact absurd h2 (by decide)
  interval_cases j <;> interval_cases i <;>
    simp only [routes, List.getElem?_cons_succ, List.getElem?_cons_zero,
      Option.some.injEq] at hi hj <;>
    subst hi hj <;>
    simp only [routeMatches, Bool.and_eq_true, decide_eq_true_eq, hG, hP, hD,
      patternMatchesStrict_root, patternMatchesStrict_style, patternMatchesStrict_token]
      at ha hb <;>
    obtain ⟨hm1, hp1⟩ := ha <;>
    obtain ⟨hm2, hp2⟩ := hb
  · exact (hRS p hp1 hp2).elim
  · exact absurd (hm1.symm.trans hm2) (by decide)
  · exact absurd (hm1.symm.trans hm2) (by decide)
  · exact (hRT p hp1 hp2).elim
  · rw [rrStyle_Match] at hp1
    exact ⟨rfl, rfl, hm1, by simpa using hp1⟩
  · exact absurd (hm1.symm.trans hm2) (by decide)
  · exact absurd (hm1.symm.trans hm2) (by decide)
  · exact absurd (hm1.symm.trans hm2) (by decide)
  · exact absurd (hm1.symm.trans hm2) (by decide)
  · exact absurd (hm1.symm.trans hm2) (by decide)

theorem overlap_only_styleguide_witness :
    (1 = 1 ∧ 3 = 3 ∧ "GET" = "GET" ∧
        ("/styleguide/".data = "/styleguide".data ∨ "/styleguide/".data = "/styleguide/".data)) ∧
      declaredRoute ((NewRouter .notAllowed "assets").ServeHTTP ⟨"GET", ⟨"/styleguide".data, []⟩⟩) =
        some 1 ∧
      declaredRoute ((NewRouter .notAllowed "assets").ServeHTTP
          ⟨"GET", ⟨"/styleguide/".data, []⟩⟩) =
        some 1 :=
  ⟨(overlap_only_styleguide .notAllowed "assets" []).1 "GET" "/styleguide/".data 1 3
      { Name := "Styleguide", Method := "GET", Pattern := "/styleguide",
        HandlerFunc := .func "StyleguideAction" }
      { Name := "ShowMessage", Method := "GET", Pattern := "/{token}/",
        HandlerFunc := .func "ShowAction" } (by decide) (by decide) (by decide) (by decide)
      (by decide),
    (overlap_only_styleguide .notAllowed "assets" []).2⟩

/-- C8 as stated fails: `GET /styleguide` is matched by two distinct routes of the
declared table, Styleguide and ShowMessage, and the result depends on the order of the
table: with the declared order the request is dispatched to Styleguide, with the table
reversed it is redirected to `/styleguide/` by ShowMessage, under every release. -/
theorem overlap_only_styleguide_counterexample :
    (routes.filter (fun r => routeMatches r (mkReq "GET" "/styleguide"))).map (fun r => r.Name) =
        ["Styleguide", "ShowMessage"] ∧
      serveAllOver routes "assets" (mkReq "GET" "/styleguide") =
        List.replicate 4 (.handled (.logger (.func "StyleguideAction") "Styleguide")
          { Route := some 1,
            Handler := some (.logger (.func "StyleguideAction") "Styleguide"),
            Vars := [], MatchErr := none }) ∧
      serveAllOver routes.reverse "assets" (mkReq "GET" "/styleguide") =
        List.replicate 4 (.handled (.redirect ⟨"/styleguide/".data, []⟩ 301)
          { Route := some 1, Handler := some (.redirect ⟨"/styleguide/".data, []⟩ 301),
            Vars := [("token".data, "styleguide".data)], MatchErr := none }) := by
  decide

/-- C9, amended: the loop of `NewRouter` detects no duplicate. Over every table whose
routes have an ASCII method name and a pattern with plain variables `{name}` only, it
builds a router that holds one route per route of the table, in table order, followed by
the static route; when two routes of the table have the same method and pattern, both are
registered, each as it would be alone, and no request is ever dispatched to the later
one. -/
theorem duplicate_route_shadowed (table : Routes) (rel : Release) (dir : String) (i j : Nat)
    (a b : Route) (hplain : ∀ r ∈ table, plainRoute r = true) (hi : table[i]? = some a)
    (hj : table[j]? = some b) (hij : i < j) (hm : a.Method = b.Method)
    (hp : a.Pattern = b.Pattern) :
    (NewRouterOver table rel dir).routes.length = table.length + 1 ∧
      (NewRouterOver table rel dir).routes[i]? = some (routeFor true a) ∧
      (NewRouterOver table rel dir).routes[j]? = some (routeFor true b) ∧
      ∀ req h mt, (NewRouterOver table rel dir).ServeHTTP req = .handled h mt →
        mt.Route ≠ some j := by
  have _ := hplain
  have hroutes := NewRouterOver_routes table rel dir
  have hil : i < table.length := by
    by_contra hcon
    rw [List.getElem?_eq_none (by omega)] at hi; exact absurd hi (by simp)
  have hjl : j < table.length := by
    by_contra hcon
    rw [List.getElem?_eq_none (by omega)] at hj; exact absurd hj (by simp)
  have hri : (NewRouterOver table rel dir).routes[i]? = some (routeFor true a) := by
    rw [hroutes, List.getElem?_append_left (by simpa using hil), List.getElem?_map, hi]; rfl
  have hrj : (NewRouterOver table rel dir).routes[j]? = some (routeFor true b) := by
    rw [hroutes, List.getElem?_append_left (by simpa using hjl), List.getElem?_map, hj]; rfl
  refine ⟨by rw [hroutes]; simp, hri, hrj, ?_⟩
  intro req h mt hserve hroute
  have hclean := serve_handled_clean _ req h mt (NewRouterOver_skipClean table rel dir) hserve
  obtain ⟨h2, mt2, hserve2, hroute2⟩ := serve_Route (NewRouterOver table rel dir) req hclean
  rw [hserve] at hserve2
  injection hserve2 with e1 e2
  subst e2
  rw [hroute] at hroute2
  obtain ⟨-, -, ⟨r, hr, hrm⟩, hbefore⟩ := firstMatch_bounds _ _ _ _ hroute2.symm
  rw [Nat.sub_zero, hrj] at hr
  have hrb : routeFor true b = r := Option.some.inj hr
  have hai := hbefore i (by omega) _ hri
  rw [routeFor_fullMatch true a b hm hp, hrb, hrm] at hai
  exact absurd hai (by simp)

theorem duplicate_route_shadowed_witness :
    (NewRouterOver
          [Route.mk "A" "GET" "/" (.func "First"), Route.mk "B" "GET" "/" (.func "Second")]
          .notAllowed "assets").routes.length = 2 + 1 ∧
      (NewRouterOver
          [Route.mk "A" "GET" "/" (.func "First"), Route.mk "B" "GET" "/" (.func "Second")]
          .notAllowed "assets").routes[0]? =
        some (routeFor true (Route.mk "A" "GET" "/" (.func "First"))) ∧
      (NewRouterOver
          [Route.mk "A" "GET" "/" (.func "First"), Route.mk "B" "GET" "/" (.func "Second")]
          .notAllowed "assets").routes[1]? =
        some (routeFor true (Route.mk "B" "GET" "/" (.func "Second"))) ∧
      ∀ req h mt, (NewRouterOver
          [Route.mk "A" "GET" "/" (.func "First"), Route.mk "B" "GET" "/" (.func "Second")]
          .notAllowed "assets").ServeHTTP req = .handled h mt → mt.Route ≠ some 1 :=
  duplicate_route_shadowed _ .notAllowed "assets" 0 1 _ _ (by decide) rfl rfl (by decide) rfl
    rfl

/-- C9 as stated fails: over a table with two routes of identical method and pattern,
`GET /`, the loop of `NewRouter` builds a router: both routes are registered without
error, nothing is rejected or flagged, and under every release `GET /` is dispatched to
the first of the two, the second being shadowed. -/
theorem duplicate_route_shadowed_counterexample :
    ((NewRouterOver
          [Route.mk "A" "GET" "/" (.func "First"), Route.mk "B" "GET" "/" (.func "Second")]
          .notAllowed "assets").routes.map (fun r => (r.name, r.err))) =
        [("A", false), ("B", false), ("", false)] ∧
      serveAllOver
          [Route.mk "A" "GET" "/" (.func "First"), Route.mk "B" "GET" "/" (.func "Second")]
          "assets" (mkReq "GET" "/") =
        List.replicate 4 (.handled (.logger (.func "First") "A")
          { Route := some 0, Handler := some (.logger (.func "First") "A"), Vars := [],
            MatchErr := none }) := by
  decide

/-- C10: when the dispatcher hands a request to the static route (the route registered
after the declared table, at position `routes.length`), the handler is the bare
`StripPrefix(staticDirPathPrefix, FileServer(assetsDir))`: no `Logger` runs, and the
static route has no name. -/
theorem static_not_logged (rel : Release) (dir : String) (req : Request) (h : Handler)
    (mt : RouteMatch) (hserve : (NewRouter rel dir).ServeHTTP req = .handled h mt)
    (hroute : mt.Route = some routes.length) :
    h = .stripPrefix staticDirPathPrefix (.fileServer dir) ∧ h.loggerCount = 0 ∧
      h.loggerNames = [] ∧
      ((NewRouter rel dir).routes[routes.length]?).map (fun r => r.name) = some "" := by
  rcases serve_cases rel dir req h mt hserve with
    ⟨k, r6, hd, hk, hhd, -, hmt, hmh⟩ | ⟨hnone, -⟩
  · have hroute2 : mt.Route = some k := by rw [hmt, setMatch_Route]
    rw [hroute] at hroute2
    have hk5 : k = 5 := (Option.some.inj hroute2).symm
    subst hk5
    rw [NewRouter_eq] at hk
    simp only [List.getElem?_cons_succ, List.getElem?_cons_zero, Option.some.injEq] at hk
    subst hk
    simp only [staticRoute, Option.some.injEq] at hhd
    subst hhd
    have hset := setMatch_static (q := req.URL.RawQuery) dir req.Method req.URL.Path
      { Route := some 5,
        Handler := some (.stripPrefix staticDirPathPrefix (.fileServer dir)),
        Vars := [], MatchErr := none }
    rw [hset] at hmt
    rw [hmt] at hmh
    have hh : Handler.stripPrefix staticDirPathPrefix (.fileServer dir) = h :=
      Option.some.inj hmh
    subst hh
    refine ⟨rfl, rfl, rfl, ?_⟩
    rw [NewRouter_eq]; rfl
  · rw [hnone] at hroute
    exact absurd hroute (by simp)

theorem static_not_logged_witness :
    Handler.stripPrefix staticDirPathPrefix (.fileServer "assets") =
        .stripPrefix staticDirPathPrefix (.fileServer "assets") ∧
      (Handler.stripPrefix staticDirPathPrefix (.fileServer "assets")).loggerCount = 0 ∧
      (Handler.stripPrefix staticDirPathPrefix (.fileServer "assets")).loggerNames = [] ∧
      ((NewRouter .notAllowed "assets").routes[routes.length]?).map (fun r => r.name) = some "" :=
  static_not_logged .notAllowed "assets" ⟨"GET", ⟨"/static/css/app.css".data, []⟩⟩
    (.stripPrefix staticDirPathPrefix (.fileServer "assets"))
    { Route := some 5, Handler := some (.stripPrefix staticDirPathPrefix (.fileServer "assets")),
      Vars := [], MatchErr := none } (by decide) (by decide)

end Cryptletter
